import Mathlib

/-!
Verification of the live VAD recorder (`src/eve/recorders/live_vad_recorder.py`).

This file gives a shallow embedding of the pieces of `LiveVadRecorder` that the
checked claims are about:

* the sidecar-status computation of `_finalize_live_json` and the live sidecar
  merge of `_append_live_segment`;
* the pending-job table updated by `_queue_asr_segment` and `_asr_worker_loop`;
* the per-chunk VAD/segmenter loop of `_record_loop` (cursor walk over VAD
  events, PCM writes, speech buffering, forced speech flush, silence-based
  finalization, `total_samples` accounting) together with `_open_live_file` /
  `_close_stream` rotation and `_reset_stream_state`;
* the auto-switch debounce of `_mark_switch_candidate` / `_check_auto_switch`;
* the smoothed-RMS update of the chunk loop.

Modelling conventions.  PCM samples are opaque payloads (`Int`); their numeric
values are never computed with, they are only moved into the PCM writer and the
speech buffer exactly as the Python slices move them.  Wall-clock time is
measured in samples since the input device was opened: the capture is real time,
so the instant `time.time()` observed right after a chunk is captured is
`device_open_time + total_samples + len(chunk)` sample-widths; we take
`device_open_time = 0`.  Durations configured in seconds or milliseconds
(`max_speech_segment_seconds`, `min_silence_ms`) are given in samples
(`seconds * sample_rate`).  The RMS smoothing, which is genuinely numeric, is
modelled separately over `ℚ`.
-/

namespace Eve

/-! ## Pending-job table (`self._asr_pending_jobs : dict[str, int]`)

An association list mirrors the Python dict: assignment replaces the binding of
an existing key in place and appends a fresh key at the end, `get(p, 0)` returns
0 for a missing key, `pop(p, None)` removes the binding. -/

/-- `self._asr_pending_jobs.get(path)` as an optional value. -/
def pmFind? : List (String × Nat) → String → Option Nat
  | [], _ => none
  | (q, v) :: rest, p => if q = p then some v else pmFind? rest p

/-- `self._asr_pending_jobs.get(path, 0)`. -/
def pmGet (m : List (String × Nat)) (p : String) : Nat := (pmFind? m p).getD 0

/-- `self._asr_pending_jobs[path] = n` (dict assignment). -/
def pmSet : List (String × Nat) → String → Nat → List (String × Nat)
  | [], p, n => [(p, n)]
  | (q, v) :: rest, p, n => if q = p then (p, n) :: rest else (q, v) :: pmSet rest p n

/-- `self._asr_pending_jobs.pop(path, None)`. -/
def pmRemove : List (String × Nat) → String → List (String × Nat)
  | [], _ => []
  | (q, v) :: rest, p => if q = p then rest else (q, v) :: pmRemove rest p

/-- `_queue_asr_segment`, lines 942-945: under the sidecar lock,
`self._asr_pending_jobs[json_path] = self._asr_pending_jobs.get(json_path, 0) + 1`. -/
def pmEnqueue (m : List (String × Nat)) (p : String) : List (String × Nat) :=
  pmSet m p (pmGet m p + 1)

/-- `_asr_worker_loop`, lines 176-181 (the `finally` block): under the sidecar
lock, `remaining = self._asr_pending_jobs.get(json_path, 0) - 1`; keep the entry
if `remaining > 0`, else pop it.  The subtraction is over `Int` as in Python. -/
def pmDone (m : List (String × Nat)) (p : String) : List (String × Nat) :=
  let remaining : Int := (pmGet m p : Int) - 1
  if 0 < remaining then pmSet m p remaining.toNat else pmRemove m p

/-- The enqueue/decrement events a single recorder performs on the pending-job
table, for claim C4. -/
inductive PendEv where
  | enq (p : String)
  | done (p : String)
deriving DecidableEq, Repr

/-- One pending-table event. -/
def pendStep (m : List (String × Nat)) : PendEv → List (String × Nat)
  | .enq p => pmEnqueue m p
  | .done p => pmDone m p

/-- The pending-job table after a sequence of events, starting from the empty
dict of `__init__`. -/
def runPend (evs : List PendEv) : List (String × Nat) :=
  evs.foldl pendStep []

/-- Number of enqueues for path `p` in an event sequence. -/
def countEnq (p : String) (evs : List PendEv) : Nat :=
  (evs.filter (fun e => e = .enq p)).length

/-- Number of worker completions for path `p` in an event sequence. -/
def countDone (p : String) (evs : List PendEv) : Nat :=
  (evs.filter (fun e => e = .done p)).length

/-! ## Sidecar documents and `_append_live_segment` -/

/-- A `speech_segments` element built by the ASR worker (live mode). -/
structure SegPayload where
  startTimeIso : String
  endTimeIso : String
  language : Option String
  text : String
deriving DecidableEq, Repr

/-- The sidecar fields `_append_live_segment` reads and writes. -/
structure SidecarDoc where
  status : Option String
  speechSegments : List SegPayload
  text : String
  language : Option String
deriving DecidableEq, Repr

/-- Code-point comparison of character lists: Python string `<=` (which
`sorted` uses) is code-point lexicographic. -/
def charListLeB : List Char → List Char → Bool
  | [], _ => true
  | _ :: _, [] => false
  | a :: as, b :: bs =>
      if a.toNat < b.toNat then true
      else if b.toNat < a.toNat then false
      else charListLeB as bs

/-- Python `<=` on strings. -/
def strLeB (a b : String) : Bool := charListLeB a.data b.data

/-- Insert into a sorted list, for `insertionSort`. -/
def insertLe (x : String) : List String → List String
  | [] => [x]
  | y :: ys => if strLeB x y then x :: y :: ys else y :: insertLe x ys

/-- A structurally recursive sort (the choice of sorting algorithm is
observationally irrelevant for `sorted` over a set). -/
def insertionSort : List String → List String
  | [] => []
  | x :: xs => insertLe x (insertionSort xs)

/-- Python `sorted(set(l))` for strings. -/
def pySortedSet (l : List String) : List String := insertionSort l.dedup

/-- `_append_live_segment`, lines 911-935, acting on the parsed document of the
named sidecar (the atomic read-modify-write-rename under `_asr_json_lock`):
append the payload to `speech_segments`, rebuild `text` as the `"\n"`-join of
the non-empty segment texts, rebuild `language` as the `", "`-join of the
sorted set of non-empty segment languages (or `None`), and set
`status = "ok"`.  When the path is the currently open sidecar the method also
sets `self._segment_has_transcripts = True`; that flag is threaded separately
(`LiveEv.append` below). -/
def appendLiveSegment (doc : SidecarDoc) (payload : SegPayload) : SidecarDoc :=
  let segs := doc.speechSegments ++ [payload]
  let texts := (segs.map SegPayload.text).filter (fun t => t ≠ "")
  let langs := (segs.filterMap SegPayload.language).filter (fun l => l ≠ "")
  { status := some "ok",
    speechSegments := segs,
    text := String.intercalate "\n" texts,
    language := if langs.isEmpty then none else some (String.intercalate ", " (pySortedSet langs)) }

/-! ## `_finalize_live_json` -/

/-- The status computation of `_finalize_live_json`, lines 871-886, performed
under the sidecar lock when an archive closes.  `diskStatus` is
`data.get("status")` of the document read back from disk, `hasTr` is
`self.transcriber is not None`, `pending` is
`self._asr_pending_jobs.get(live_json_path, 0)`. -/
def finalizeStatus (diskStatus : Option String) (hasTr hadSpeech segHasTranscripts : Bool)
    (pending : Nat) : String :=
  if diskStatus = some "ok" then "ok"
  else if hasTr = false then
    if hadSpeech then "pending_asr" else "no_speech"
  else if segHasTranscripts then "ok"
  else if 0 < pending then "pending_asr"
  else if hadSpeech = false then "no_speech"
  else "no_text"

/-- The events that can touch one live sidecar between `_init_live_json` and
`_finalize_live_json`: an ASR-worker append of a non-empty transcript for this
sidecar (`_append_live_segment`, which writes `status = "ok"` and sets
`_segment_has_transcripts`), an enqueue (`_queue_asr_segment`) and a worker
completion (the `finally` decrement).  The worker appends only when a
transcriber is configured (it skips the job otherwise, lines 157-158). -/
inductive LiveEv where
  | append
  | enq
  | done
deriving DecidableEq, Repr

/-- The per-sidecar state those events act on: the on-disk `status` field, the
in-memory `_segment_has_transcripts` flag and the pending-job count for the
sidecar path. -/
structure LiveSt where
  diskStatus : String
  segHasTranscripts : Bool
  pending : Nat
deriving DecidableEq, Repr

/-- One sidecar event. -/
def liveStep (st : LiveSt) : LiveEv → LiveSt
  | .append => { diskStatus := "ok", segHasTranscripts := true, pending := st.pending }
  | .enq => { st with pending := st.pending + 1 }
  | .done => { st with pending := st.pending - 1 }

/-- Sidecar state after a sequence of events; the initial state is the one
`_init_live_json` / `_open_live_file` establish: `status = "recording"`,
`_segment_has_transcripts = False`, no pending jobs. -/
def runLive (evs : List LiveEv) : LiveSt :=
  evs.foldl liveStep { diskStatus := "recording", segHasTranscripts := false, pending := 0 }

/-- The status `_finalize_live_json` writes when the archive closes in state
`st`. -/
def closeStatus (hasTr hadSpeech : Bool) (st : LiveSt) : String :=
  finalizeStatus (some st.diskStatus) hasTr hadSpeech st.segHasTranscripts st.pending

/-- Modelled from the words of claim C1 (the spec's status table in section
4.6): with no transcriber, `pending_asr` when speech was observed and
`no_speech` otherwise; with a transcriber, `ok` when a non-empty transcript was
appended for this segment, else `pending_asr` when jobs are pending, else
`no_speech` when no speech was observed, else `no_text`. -/
def specFinalC1 (hasTr hadSpeech appended : Bool) (pending : Nat) : String :=
  if hasTr = false then
    if hadSpeech then "pending_asr" else "no_speech"
  else if appended then "ok"
  else if 0 < pending then "pending_asr"
  else if hadSpeech = false then "no_speech"
  else "no_text"

/-! ## ASR worker body (`_asr_worker_loop`, lines 155-182) -/

/-- The outcome of `self.transcriber.transcribe_audio((audio, sample_rate))`:
either a result dict (whose `text` and `language` we keep; a missing key is the
empty string, as with `result.get("text") or ""`), or a raised exception. -/
inductive AsrOutcome where
  | result (text : String) (language : String)
  | failure
deriving DecidableEq, Repr

/-- One iteration of the ASR worker on a job for sidecar path `p`, acting on
that sidecar's document and on the pending-job table.  Mirrors lines 155-182:
with no transcriber the job is skipped (jobs always carry a non-null path, so
the `json_path is None` guard never fires); a failure is logged and swallowed;
an empty stripped text is skipped; otherwise the payload is merged with
`_append_live_segment`.  The `finally` block always decrements the pending
count, on every path including `continue` and the exception handler. -/
def asrWorkerStep (hasTr : Bool) (res : AsrOutcome) (startIso endIso : String)
    (doc : SidecarDoc) (m : List (String × Nat)) (p : String) :
    SidecarDoc × List (String × Nat) :=
  let doc' :=
    if hasTr = false then doc
    else
      match res with
      | .failure => doc
      | .result t l =>
          let text := t.trim
          if text = "" then doc
          else
            appendLiveSegment doc
              { startTimeIso := startIso, endTimeIso := endIso,
                language := if l.trim = "" then none else some l.trim,
                text := text }
  (doc', pmDone m p)

/-! ## The segmenter loop (`_record_loop`, lines 1005-1065)

One VAD event is `{start: s}` or `{end: e}` with `s`, `e` sample offsets into
the current chunk (section 4.2 of the spec).  The code sorts the events of a
chunk by position before walking them (lines 1020-1021); the VAD gate emits
them in chronological order (well-formedness below), on which the stable sort
is the identity, so events enter the model already ordered. -/

inductive VadEv where
  | vstart (s : Nat)
  | vend (e : Nat)
deriving DecidableEq, Repr

/-- One PCM sample; payload only, never computed with. -/
abbrev Sample := Int

/-- A chunk of samples (`chunk = audio[offset : offset + chunk_samples]`). -/
abbrev Chunk := List Sample

/-- One item of `self._asr_queue`: the concatenated speech audio, the start and
end sample positions from which `_finalize_speech_segment` derives the ISO
timestamps, and the (non-null) sidecar path. -/
structure AsrJob where
  audio : Chunk
  startSample : Nat
  endSample : Nat
  jsonPath : String
deriving DecidableEq, Repr

/-- The configuration fields the loop reads, durations in samples. -/
structure RecConfig where
  chunkSamples : Nat
  maxSpeechSamples : Nat
  minSilenceSamples : Nat
  hasTranscriber : Bool
deriving DecidableEq, Repr

/-- The mutable recorder state the loop owns.  `written` is the sample stream
the PCM writer has received for the whole run; `jobs` the ASR jobs enqueued so
far; `archiveCount` counts `_open_live_file` calls after the first;
`forcedFlushes` counts executions of the forced speech flush (lines
1052-1054). -/
structure RecState where
  inSpeech : Bool
  speechStartSample : Option Nat
  speechStartTime : Option Nat
  pendingEndSample : Option Nat
  pendingEndTime : Option Nat
  lastVoiceTime : Option Nat
  totalSamples : Nat
  streamStartTime : Nat
  speechBuffer : List Chunk
  hadSpeech : Bool
  segmentHasTranscripts : Bool
  written : List Sample
  jobs : List AsrJob
  pending : List (String × Nat)
  liveJsonPath : Option String
  archiveCount : Nat
  forcedFlushes : Nat
deriving DecidableEq, Repr

/-- The state after `__init__` and `_open_live_file` on path `path`. -/
def initRecState (path : Option String) : RecState :=
  { inSpeech := false, speechStartSample := none, speechStartTime := none,
    pendingEndSample := none, pendingEndTime := none, lastVoiceTime := none,
    totalSamples := 0, streamStartTime := 0, speechBuffer := [],
    hadSpeech := false, segmentHasTranscripts := false, written := [],
    jobs := [], pending := [], liveJsonPath := path, archiveCount := 0,
    forcedFlushes := 0 }

/-- `_reset_speech_state`, lines 948-953. -/
def resetSpeechState (st : RecState) : RecState :=
  { st with inSpeech := false, speechStartSample := none, speechStartTime := none,
            pendingEndSample := none, pendingEndTime := none }

/-- `_queue_asr_segment`, lines 937-946: return unless a transcriber is
configured and the sidecar path is non-null; otherwise bump the pending count
under the lock and put the job on the ASR queue. -/
def queueAsrSegment (cfg : RecConfig) (audio : Chunk) (startSample endSample : Nat)
    (st : RecState) : RecState :=
  if cfg.hasTranscriber then
    match st.liveJsonPath with
    | some p =>
        { st with pending := pmEnqueue st.pending p,
                  jobs := st.jobs ++
                    [{ audio := audio, startSample := startSample,
                       endSample := endSample, jsonPath := p }] }
    | none => st
  else st

/-- `_finalize_speech_segment`, lines 955-970: with an empty buffer only reset
the speech state; with no transcriber clear the buffer and reset; otherwise
concatenate the buffer, derive the start position from
`self._speech_start_sample or 0`, queue the ASR job and reset. -/
def finalizeSpeechSegment (cfg : RecConfig) (endSample : Nat) (st : RecState) : RecState :=
  if st.speechBuffer.isEmpty then resetSpeechState st
  else if cfg.hasTranscriber = false then resetSpeechState { st with speechBuffer := [] }
  else
    let audio := st.speechBuffer.flatten
    let startSample := st.speechStartSample.getD 0
    resetSpeechState
      (queueAsrSegment cfg audio startSample endSample { st with speechBuffer := [] })

/-- `_should_rotate_speech`, lines 905-909, with `now` the wall clock in sample
units: false when no speech is open, else `now - speech_start_time >=
max_speech_segment_seconds` (the subtraction over `Int`, as the Python floats). -/
def shouldRotateSpeech (cfg : RecConfig) (now : Nat) (st : RecState) : Bool :=
  match st.speechStartTime with
  | none => false
  | some t => (cfg.maxSpeechSamples : Int) ≤ (now : Int) - (t : Int)

/-- The cursor walk over one VAD event, lines 1023-1045.  On `start`: if not in
speech, enter speech, record `speech_start_sample = total_samples + start` and
`speech_start_time = stream_start_time + speech_start_sample / rate`, clear the
pending end; in all cases move the cursor to `start`.  On `end` while in
speech: append `chunk[cursor:end]` to the speech buffer when `end > cursor` and
a transcriber is configured, write the same slice to the PCM writer, set
`had_speech`, record the pending end, leave speech, move the cursor to `end`.
Python slices clamp exactly as `(chunk.drop cursor).take (e - cursor)` does. -/
def applyVadEvent (cfg : RecConfig) (chunk : Chunk) (now : Nat)
    (acc : RecState × Nat) : VadEv → RecState × Nat
  | .vstart s =>
      let st := acc.1
      let st :=
        if st.inSpeech then st
        else
          { st with inSpeech := true,
                    speechStartSample := some (st.totalSamples + s),
                    speechStartTime := some (st.streamStartTime + (st.totalSamples + s)),
                    pendingEndSample := none, pendingEndTime := none }
      (st, s)
  | .vend e =>
      let st := acc.1
      let cursor := acc.2
      if st.inSpeech then
        let slice := (chunk.drop cursor).take (e - cursor)
        ({ st with
            speechBuffer :=
              if cursor < e && cfg.hasTranscriber then st.speechBuffer ++ [slice]
              else st.speechBuffer,
            written := st.written ++ slice,
            hadSpeech := true,
            pendingEndSample := some (st.totalSamples + e),
            pendingEndTime := some now,
            inSpeech := false }, e)
      else (st, cursor)

/-- The still-in-speech write of lines 1046-1051: buffer and write
`chunk[cursor:]`, set `had_speech` and `last_voice_time`. -/
def speechTailWrite (cfg : RecConfig) (chunk : Chunk) (now cursor : Nat)
    (st1 : RecState) : RecState :=
  { st1 with
      speechBuffer :=
        if cfg.hasTranscriber then st1.speechBuffer ++ [chunk.drop cursor]
        else st1.speechBuffer,
      written := st1.written ++ chunk.drop cursor,
      hadSpeech := true,
      lastVoiceTime := some now }

/-- Lines 1046-1059, after the event walk: while still in speech, do the tail
write and run the forced speech flush (lines 1052-1054, counted in
`forcedFlushes`) when the run exceeds the cap; while out of speech, run the
silence-based finalization when the pending end is old enough. -/
def chunkTail (cfg : RecConfig) (chunk : Chunk) (now cursor : Nat)
    (st1 : RecState) : RecState :=
  if st1.inSpeech then
    let stW := speechTailWrite cfg chunk now cursor st1
    if shouldRotateSpeech cfg now stW then
      { finalizeSpeechSegment cfg (stW.totalSamples + chunk.length) stW with
          forcedFlushes := stW.forcedFlushes + 1 }
    else stW
  else
    match st1.pendingEndTime with
    | some t =>
        if (cfg.minSilenceSamples : Int) ≤ (now : Int) - (t : Int) then
          finalizeSpeechSegment cfg (st1.pendingEndSample.getD st1.totalSamples) st1
        else st1
    | none => st1

/-- One `chunk_samples`-sized sub-chunk of the loop body, lines 1018-1060
(the RMS smoothing of lines 1010-1017 is modelled separately over `ℚ`).
`now = time.time()` right after the chunk was captured, i.e.
`total_samples + len(chunk)` sample-widths after the device opened: the event
walk, then the tail write / forced flush / silence finalization, and finally
`total_samples += len(chunk)`. -/
def processChunk (cfg : RecConfig) (st : RecState) (chunk : Chunk) (evs : List VadEv) :
    RecState :=
  let now := st.totalSamples + chunk.length
  let folded := evs.foldl (applyVadEvent cfg chunk now) (st, 0)
  let st2 := chunkTail cfg chunk now folded.2 folded.1
  { st2 with totalSamples := st2.totalSamples + chunk.length }

/-- The loop over a sequence of (chunk, VAD events) pairs. -/
def runTrace (cfg : RecConfig) (st : RecState) (trace : List (Chunk × List VadEv)) :
    RecState :=
  trace.foldl (fun s ce => processChunk cfg s ce.1 ce.2) st

/-- Archive rotation, lines 1063-1065: `_close_stream()` (flush, finalize the
old sidecar) followed by `_open_live_file()` (lines 803-827), at wall time
`now` with the fresh sidecar path `newPath`.  `_open_live_file` sets
`stream_start_time` to the rotation time, clears `had_speech` and
`_segment_has_transcripts`, pops any stale pending entry for the new path and
writes the fresh sidecar.  Note what it does **not** touch: `total_samples`,
`_in_speech` and the speech buffer survive the rotation. -/
def rotateArchive (now : Nat) (newPath : String) (st : RecState) : RecState :=
  { st with streamStartTime := now,
            hadSpeech := false,
            segmentHasTranscripts := false,
            liveJsonPath := some newPath,
            pending := pmRemove st.pending newPath,
            archiveCount := st.archiveCount + 1 }

/-- `_reset_stream_state`, lines 752-763, run on device errors and device
switches before the loop reopens: clears the speech buffer and speech state,
zeroes `total_samples`, forgets the stream start and the flags. -/
def resetStreamState (st : RecState) : RecState :=
  resetSpeechState
    { st with speechBuffer := [], totalSamples := 0, streamStartTime := 0,
              lastVoiceTime := none, hadSpeech := false, segmentHasTranscripts := false }

/-! ## Well-formed VAD event streams

The VAD gate (spec section 4.2) emits events in chronological order and
alternates `start`/`end` with its own hysteresis state: a `start` only while
silent, an `end` only while in speech, each offset within the chunk. -/

/-- Events of one chunk, checked against the VAD's in-speech state and the
position reached so far. -/
def chunkEvsOk (cs : Nat) : Bool → Nat → List VadEv → Bool
  | _, _, [] => true
  | vadIn, cursor, .vstart s :: rest =>
      !vadIn && cursor ≤ s && s < cs && chunkEvsOk cs true s rest
  | vadIn, cursor, .vend e :: rest =>
      vadIn && cursor ≤ e && e ≤ cs && chunkEvsOk cs false e rest

/-- The VAD's in-speech state after the events of one chunk. -/
def evsVadEnd : Bool → List VadEv → Bool
  | vadIn, [] => vadIn
  | _, .vstart _ :: rest => evsVadEnd true rest
  | _, .vend _ :: rest => evsVadEnd false rest

/-- A well-formed trace: every chunk has exactly `cs` samples and its events
are well-formed against the running VAD state. -/
def traceOk (cs : Nat) : Bool → List (Chunk × List VadEv) → Bool
  | _, [] => true
  | vadIn, (c, evs) :: rest =>
      c.length = cs && chunkEvsOk cs vadIn 0 evs && traceOk cs (evsVadEnd vadIn evs) rest

/-! ## The VAD reference: what the event stream marked as speech

This is the specification side of claim C2: the intervals `[start_i, end_i)`
the VAD marked as speech, in absolute sample positions, and their in-order
concatenation sliced out of the input stream. -/

/-- Interval-collection state: VAD in-speech flag, start of the open interval,
absolute position, closed intervals so far. -/
structure VadRef where
  vadIn : Bool
  openStart : Nat
  total : Nat
  ivs : List (Nat × Nat)
deriving DecidableEq, Repr

/-- Interval collection over one event. -/
def vadRefEvent (r : VadRef) : VadEv → VadRef
  | .vstart s => if r.vadIn then r else { r with vadIn := true, openStart := r.total + s }
  | .vend e =>
      if r.vadIn then
        { r with vadIn := false, ivs := r.ivs ++ [(r.openStart, r.total + e)] }
      else r

/-- Interval collection over one chunk. -/
def vadRefChunk (r : VadRef) (ce : Chunk × List VadEv) : VadRef :=
  let r := ce.2.foldl vadRefEvent r
  { r with total := r.total + ce.1.length }

/-- Interval collection over a trace. -/
def vadRefRun (trace : List (Chunk × List VadEv)) : VadRef :=
  trace.foldl vadRefChunk { vadIn := false, openStart := 0, total := 0, ivs := [] }

/-- The slice `stream[a:b)`. -/
def sliceStream (stream : List Sample) (iv : Nat × Nat) : List Sample :=
  (stream.drop iv.1).take (iv.2 - iv.1)

/-- The whole input stream of a trace. -/
def fullStream (trace : List (Chunk × List VadEv)) : List Sample :=
  (trace.map Prod.fst).flatten

/-- The in-order concatenation of the samples the VAD marked as speech: the
closed intervals `[start_i, end_i)`, plus the still-open run up to the end of
the stream when the trace ends mid-speech. -/
def vadSpeechSamples (trace : List (Chunk × List VadEv)) : List Sample :=
  let r := vadRefRun trace
  let stream := fullStream trace
  (r.ivs.map (sliceStream stream)).flatten ++
    (if r.vadIn then stream.drop r.openStart else [])

/-! ## Auto-switch debounce (`_mark_switch_candidate`, `_check_auto_switch`) -/

/-- The auto-switch state `_check_auto_switch` reads and writes: the current
candidate and its consecutive-win count, the active device index, the last
switch time, the device fingerprint, and whether `DeviceSwitchRequest` has been
raised. -/
structure AutoSwitchState where
  candidate : Option Nat
  hits : Nat
  device : Option Nat
  lastSwitchTime : Nat
  fingerprint : Option (String × Nat)
  raised : Bool
deriving DecidableEq, Repr

/-- `_mark_switch_candidate`, lines 533-540: a repeated winner bumps the hit
count, a new winner restarts it at 1; returns whether the count reached
`max(1, auto_switch_confirmations)`. -/
def markSwitchCandidate (confirmations : Nat) (st : AutoSwitchState) (idx : Nat) :
    AutoSwitchState × Bool :=
  let st :=
    if st.candidate = some idx then { st with hits := st.hits + 1 }
    else { st with candidate := some idx, hits := 1 }
  (st, max 1 confirmations ≤ st.hits)

/-- The tail of `_check_auto_switch`, lines 596-607, for a scan whose qualified
winner is device `w` at wall time `now`: mark the candidate; when confirmed,
set the device, record the switch time, clear the fingerprint (and the device
list snapshot), clear the candidate and raise `DeviceSwitchRequest`. -/
def scanWin (confirmations now w : Nat) (st : AutoSwitchState) : AutoSwitchState :=
  let mk := markSwitchCandidate confirmations st w
  if mk.2 then
    { mk.1 with device := some w, lastSwitchTime := now, fingerprint := none,
                candidate := none, hits := 0, raised := true }
  else mk.1

/-- `k` consecutive scans all won by the same candidate `w`. -/
def scanWins (confirmations now w : Nat) (st : AutoSwitchState) : Nat → AutoSwitchState
  | 0 => st
  | k + 1 => scanWin confirmations now w (scanWins confirmations now w st k)

/-! ## Smoothed input RMS (lines 1010-1017) -/

/-- The `_last_input_rms` update for a chunk of RMS `x`: seed with `x` when the
old value is not positive; otherwise take `x` when it attacks (`x >= old`) and
`0.85 * old + 0.15 * x` when it releases. -/
def rmsSmooth (old x : ℚ) : ℚ :=
  if old ≤ 0 then x
  else if old ≤ x then x
  else (85 / 100) * old + (15 / 100) * x

/-! ## Invariants used by the continuity proofs -/

/-- The speech-continuity invariant between chunks: the recorder's in-speech
flag tracks the VAD's, the sample counters equal the length of the stream
consumed so far, the collected intervals lie inside the stream, and the PCM
writer holds exactly the closed intervals plus the open speech run. -/
def ContInv (stream : List Sample) (st : RecState) (r : VadRef) : Prop :=
  st.inSpeech = r.vadIn ∧
  st.totalSamples = stream.length ∧
  r.total = stream.length ∧
  (∀ iv ∈ r.ivs, iv.1 ≤ iv.2 ∧ iv.2 ≤ stream.length) ∧
  (r.vadIn = true → r.openStart ≤ stream.length) ∧
  st.written = (r.ivs.map (sliceStream stream)).flatten ++
    (if r.vadIn then stream.drop r.openStart else [])

/-- The speech-continuity invariant inside the event walk of one chunk, at
cursor position `cursor`. -/
def ContInvC (stream chunk : List Sample) (st : RecState) (r : VadRef)
    (cursor : Nat) : Prop :=
  st.inSpeech = r.vadIn ∧
  st.totalSamples = stream.length ∧
  r.total = stream.length ∧
  cursor ≤ chunk.length ∧
  (∀ iv ∈ r.ivs, iv.1 ≤ iv.2 ∧ iv.2 ≤ stream.length + cursor) ∧
  (r.vadIn = true → r.openStart ≤ stream.length + cursor) ∧
  st.written = (r.ivs.map (sliceStream (stream ++ chunk))).flatten ++
    (if r.vadIn then
      ((stream ++ chunk).drop r.openStart).take (stream.length + cursor - r.openStart)
    else [])

/-- Non-empty speech slices: every buffered slice and every queued job carries
at least one sample (claim C10). -/
def BufInv (st : RecState) : Prop :=
  (∀ b ∈ st.speechBuffer, b ≠ ([] : Chunk)) ∧
  (∀ j ∈ st.jobs, j.audio ≠ ([] : Chunk))

/-- Positional well-formedness of one chunk's events: every `start` offset is
strictly inside the chunk, every `end` offset at most the chunk length (the
VAD emits offsets within the chunk, section 4.2). -/
def evPosOk (cs : Nat) : List VadEv → Bool
  | [] => true
  | .vstart s :: rest => s < cs && evPosOk cs rest
  | .vend e :: rest => e ≤ cs && evPosOk cs rest

/-- Positional well-formedness of a trace. -/
def tracePosOk (cs : Nat) : List (Chunk × List VadEv) → Bool
  | [] => true
  | (c, evs) :: rest => c.length = cs && evPosOk cs evs && tracePosOk cs rest

/-- The state of a continuous speech run that started at absolute sample `s`
(strictly inside its first chunk) and has not yet hit the forced-flush cap:
used for claim C6. -/
def SpeechRunInv (cfg : RecConfig) (p : String) (s : Nat) (st : RecState) : Prop :=
  st.inSpeech = true ∧ st.speechStartSample = some s ∧ st.speechStartTime = some s ∧
  st.speechBuffer ≠ [] ∧ st.speechBuffer.flatten.length = st.totalSamples - s ∧
  s ≤ st.totalSamples ∧ st.totalSamples - s < cfg.maxSpeechSamples ∧
  st.jobs = [] ∧ st.liveJsonPath = some p ∧ st.streamStartTime = 0 ∧
  st.pendingEndTime = none ∧ st.archiveCount = 0

/-- The state after the forced speech flush fired once during such a run:
exactly one ASR job, its audio between the cap and the cap plus one chunk,
and the archive untouched. -/
def FlushedRunInv (cfg : RecConfig) (st : RecState) : Prop :=
  st.inSpeech = false ∧ st.pendingEndTime = none ∧
  st.jobs.length = 1 ∧
  (∀ j ∈ st.jobs, cfg.maxSpeechSamples ≤ j.audio.length ∧
    j.audio.length < cfg.maxSpeechSamples + cfg.chunkSamples) ∧
  st.archiveCount = 0

/-! ## Frame lemmas for the segmenter operations -/

@[simp] theorem resetSpeechState_written (st : RecState) :
    (resetSpeechState st).written = st.written := rfl

@[simp] theorem resetSpeechState_hadSpeech (st : RecState) :
    (resetSpeechState st).hadSpeech = st.hadSpeech := rfl

@[simp] theorem resetSpeechState_totalSamples (st : RecState) :
    (resetSpeechState st).totalSamples = st.totalSamples := rfl

@[simp] theorem resetSpeechState_streamStartTime (st : RecState) :
    (resetSpeechState st).streamStartTime = st.streamStartTime := rfl

@[simp] theorem resetSpeechState_archiveCount (st : RecState) :
    (resetSpeechState st).archiveCount = st.archiveCount := rfl

@[simp] theorem resetSpeechState_forcedFlushes (st : RecState) :
    (resetSpeechState st).forcedFlushes = st.forcedFlushes := rfl

@[simp] theorem resetSpeechState_jobs (st : RecState) :
    (resetSpeechState st).jobs = st.jobs := rfl

@[simp] theorem resetSpeechState_pending (st : RecState) :
    (resetSpeechState st).pending = st.pending := rfl

@[simp] theorem resetSpeechState_liveJsonPath (st : RecState) :
    (resetSpeechState st).liveJsonPath = st.liveJsonPath := rfl

@[simp] theorem resetSpeechState_speechBuffer (st : RecState) :
    (resetSpeechState st).speechBuffer = st.speechBuffer := rfl

@[simp] theorem resetSpeechState_segmentHasTranscripts (st : RecState) :
    (resetSpeechState st).segmentHasTranscripts = st.segmentHasTranscripts := rfl

@[simp] theorem resetSpeechState_inSpeech (st : RecState) :
    (resetSpeechState st).inSpeech = false := rfl

@[simp] theorem resetSpeechState_pendingEndTime (st : RecState) :
    (resetSpeechState st).pendingEndTime = none := rfl

@[simp] theorem resetSpeechState_pendingEndSample (st : RecState) :
    (resetSpeechState st).pendingEndSample = none := rfl

@[simp] theorem resetSpeechState_speechStartSample (st : RecState) :
    (resetSpeechState st).speechStartSample = none := rfl

@[simp] theorem resetSpeechState_speechStartTime (st : RecState) :
    (resetSpeechState st).speechStartTime = none := rfl

@[simp] theorem queueAsrSegment_written (cfg : RecConfig) (a : Chunk) (s e : Nat)
    (st : RecState) : (queueAsrSegment cfg a s e st).written = st.written := by
  unfold queueAsrSegment; split
  · split <;> rfl
  · rfl

@[simp] theorem queueAsrSegment_hadSpeech (cfg : RecConfig) (a : Chunk) (s e : Nat)
    (st : RecState) : (queueAsrSegment cfg a s e st).hadSpeech = st.hadSpeech := by
  unfold queueAsrSegment; split
  · split <;> rfl
  · rfl

@[simp] theorem queueAsrSegment_totalSamples (cfg : RecConfig) (a : Chunk) (s e : Nat)
    (st : RecState) : (queueAsrSegment cfg a s e st).totalSamples = st.totalSamples := by
  unfold queueAsrSegment; split
  · split <;> rfl
  · rfl

@[simp] theorem queueAsrSegment_streamStartTime (cfg : RecConfig) (a : Chunk) (s e : Nat)
    (st : RecState) : (queueAsrSegment cfg a s e st).streamStartTime = st.streamStartTime := by
  unfold queueAsrSegment; split
  · split <;> rfl
  · rfl

@[simp] theorem queueAsrSegment_archiveCount (cfg : RecConfig) (a : Chunk) (s e : Nat)
    (st : RecState) : (queueAsrSegment cfg a s e st).archiveCount = st.archiveCount := by
  unfold queueAsrSegment; split
  · split <;> rfl
  · rfl

@[simp] theorem queueAsrSegment_forcedFlushes (cfg : RecConfig) (a : Chunk) (s e : Nat)
    (st : RecState) : (queueAsrSegment cfg a s e st).forcedFlushes = st.forcedFlushes := by
  unfold queueAsrSegment; split
  · split <;> rfl
  · rfl

@[simp] theorem queueAsrSegment_liveJsonPath (cfg : RecConfig) (a : Chunk) (s e : Nat)
    (st : RecState) : (queueAsrSegment cfg a s e st).liveJsonPath = st.liveJsonPath := by
  unfold queueAsrSegment; split
  · split <;> rfl
  · rfl

@[simp] theorem queueAsrSegment_speechBuffer (cfg : RecConfig) (a : Chunk) (s e : Nat)
    (st : RecState) : (queueAsrSegment cfg a s e st).speechBuffer = st.speechBuffer := by
  unfold queueAsrSegment; split
  · split <;> rfl
  · rfl

@[simp] theorem queueAsrSegment_inSpeech (cfg : RecConfig) (a : Chunk) (s e : Nat)
    (st : RecState) : (queueAsrSegment cfg a s e st).inSpeech = st.inSpeech := by
  unfold queueAsrSegment; split
  · split <;> rfl
  · rfl

@[simp] theorem queueAsrSegment_pendingEndTime (cfg : RecConfig) (a : Chunk) (s e : Nat)
    (st : RecState) : (queueAsrSegment cfg a s e st).pendingEndTime = st.pendingEndTime := by
  unfold queueAsrSegment; split
  · split <;> rfl
  · rfl

@[simp] theorem queueAsrSegment_speechStartSample (cfg : RecConfig) (a : Chunk) (s e : Nat)
    (st : RecState) :
    (queueAsrSegment cfg a s e st).speechStartSample = st.speechStartSample := by
  unfold queueAsrSegment; split
  · split <;> rfl
  · rfl

@[simp] theorem queueAsrSegment_speechStartTime (cfg : RecConfig) (a : Chunk) (s e : Nat)
    (st : RecState) :
    (queueAsrSegment cfg a s e st).speechStartTime = st.speechStartTime := by
  unfold queueAsrSegment; split
  · split <;> rfl
  · rfl

@[simp] theorem queueAsrSegment_pendingEndSample (cfg : RecConfig) (a : Chunk) (s e : Nat)
    (st : RecState) :
    (queueAsrSegment cfg a s e st).pendingEndSample = st.pendingEndSample := by
  unfold queueAsrSegment; split
  · split <;> rfl
  · rfl

@[simp] theorem queueAsrSegment_segmentHasTranscripts (cfg : RecConfig) (a : Chunk)
    (s e : Nat) (st : RecState) :
    (queueAsrSegment cfg a s e st).segmentHasTranscripts = st.segmentHasTranscripts := by
  unfold queueAsrSegment; split
  · split <;> rfl
  · rfl

@[simp] theorem finalizeSpeechSegment_written (cfg : RecConfig) (e : Nat) (st : RecState) :
    (finalizeSpeechSegment cfg e st).written = st.written := by
  unfold finalizeSpeechSegment; split
  · rfl
  · split <;> simp

@[simp] theorem finalizeSpeechSegment_hadSpeech (cfg : RecConfig) (e : Nat) (st : RecState) :
    (finalizeSpeechSegment cfg e st).hadSpeech = st.hadSpeech := by
  unfold finalizeSpeechSegment; split
  · rfl
  · split <;> simp

@[simp] theorem finalizeSpeechSegment_totalSamples (cfg : RecConfig) (e : Nat)
    (st : RecState) : (finalizeSpeechSegment cfg e st).totalSamples = st.totalSamples := by
  unfold finalizeSpeechSegment; split
  · rfl
  · split <;> simp

@[simp] theorem finalizeSpeechSegment_streamStartTime (cfg : RecConfig) (e : Nat)
    (st : RecState) :
    (finalizeSpeechSegment cfg e st).streamStartTime = st.streamStartTime := by
  unfold finalizeSpeechSegment; split
  · rfl
  · split <;> simp

@[simp] theorem finalizeSpeechSegment_archiveCount (cfg : RecConfig) (e : Nat)
    (st : RecState) : (finalizeSpeechSegment cfg e st).archiveCount = st.archiveCount := by
  unfold finalizeSpeechSegment; split
  · rfl
  · split <;> simp

@[simp] theorem finalizeSpeechSegment_forcedFlushes (cfg : RecConfig) (e : Nat)
    (st : RecState) : (finalizeSpeechSegment cfg e st).forcedFlushes = st.forcedFlushes := by
  unfold finalizeSpeechSegment; split
  · rfl
  · split <;> simp

@[simp] theorem finalizeSpeechSegment_liveJsonPath (cfg : RecConfig) (e : Nat)
    (st : RecState) : (finalizeSpeechSegment cfg e st).liveJsonPath = st.liveJsonPath := by
  unfold finalizeSpeechSegment; split
  · rfl
  · split <;> simp

@[simp] theorem finalizeSpeechSegment_segmentHasTranscripts (cfg : RecConfig) (e : Nat)
    (st : RecState) :
    (finalizeSpeechSegment cfg e st).segmentHasTranscripts = st.segmentHasTranscripts := by
  unfold finalizeSpeechSegment; split
  · rfl
  · split <;> simp

@[simp] theorem finalizeSpeechSegment_inSpeech (cfg : RecConfig) (e : Nat) (st : RecState) :
    (finalizeSpeechSegment cfg e st).inSpeech = false := by
  unfold finalizeSpeechSegment; split
  · rfl
  · split <;> simp

@[simp] theorem finalizeSpeechSegment_pendingEndTime (cfg : RecConfig) (e : Nat)
    (st : RecState) : (finalizeSpeechSegment cfg e st).pendingEndTime = none := by
  unfold finalizeSpeechSegment; split
  · rfl
  · split <;> simp

@[simp] theorem finalizeSpeechSegment_speechBuffer (cfg : RecConfig) (e : Nat)
    (st : RecState) : (finalizeSpeechSegment cfg e st).speechBuffer = [] := by
  unfold finalizeSpeechSegment; split
  · next h => simpa [List.isEmpty_iff] using h
  · split <;> simp

theorem applyVadEvent_totalSamples (cfg : RecConfig) (chunk : Chunk) (now : Nat)
    (acc : RecState × Nat) (ev : VadEv) :
    (applyVadEvent cfg chunk now acc ev).1.totalSamples = acc.1.totalSamples := by
  cases ev with
  | vstart s => by_cases h : acc.1.inSpeech <;> simp [applyVadEvent, h]
  | vend e => by_cases h : acc.1.inSpeech <;> simp [applyVadEvent, h]

theorem applyVadEvent_streamStartTime (cfg : RecConfig) (chunk : Chunk) (now : Nat)
    (acc : RecState × Nat) (ev : VadEv) :
    (applyVadEvent cfg chunk now acc ev).1.streamStartTime = acc.1.streamStartTime := by
  cases ev with
  | vstart s => by_cases h : acc.1.inSpeech <;> simp [applyVadEvent, h]
  | vend e => by_cases h : acc.1.inSpeech <;> simp [applyVadEvent, h]

theorem applyVadEvent_archiveCount (cfg : RecConfig) (chunk : Chunk) (now : Nat)
    (acc : RecState × Nat) (ev : VadEv) :
    (applyVadEvent cfg chunk now acc ev).1.archiveCount = acc.1.archiveCount := by
  cases ev with
  | vstart s => by_cases h : acc.1.inSpeech <;> simp [applyVadEvent, h]
  | vend e => by_cases h : acc.1.inSpeech <;> simp [applyVadEvent, h]

theorem applyVadEvent_forcedFlushes (cfg : RecConfig) (chunk : Chunk) (now : Nat)
    (acc : RecState × Nat) (ev : VadEv) :
    (applyVadEvent cfg chunk now acc ev).1.forcedFlushes = acc.1.forcedFlushes := by
  cases ev with
  | vstart s => by_cases h : acc.1.inSpeech <;> simp [applyVadEvent, h]
  | vend e => by_cases h : acc.1.inSpeech <;> simp [applyVadEvent, h]

theorem applyVadEvent_liveJsonPath (cfg : RecConfig) (chunk : Chunk) (now : Nat)
    (acc : RecState × Nat) (ev : VadEv) :
    (applyVadEvent cfg chunk now acc ev).1.liveJsonPath = acc.1.liveJsonPath := by
  cases ev with
  | vstart s => by_cases h : acc.1.inSpeech <;> simp [applyVadEvent, h]
  | vend e => by_cases h : acc.1.inSpeech <;> simp [applyVadEvent, h]

theorem applyVadEvent_jobs (cfg : RecConfig) (chunk : Chunk) (now : Nat)
    (acc : RecState × Nat) (ev : VadEv) :
    (applyVadEvent cfg chunk now acc ev).1.jobs = acc.1.jobs := by
  cases ev with
  | vstart s => by_cases h : acc.1.inSpeech <;> simp [applyVadEvent, h]
  | vend e => by_cases h : acc.1.inSpeech <;> simp [applyVadEvent, h]

theorem applyVadEvent_archive_fields (cfg : RecConfig) (chunk : Chunk) (now : Nat)
    (acc : RecState × Nat) (ev : VadEv) :
    (applyVadEvent cfg chunk now acc ev).1.totalSamples = acc.1.totalSamples ∧
    (applyVadEvent cfg chunk now acc ev).1.streamStartTime = acc.1.streamStartTime ∧
    (applyVadEvent cfg chunk now acc ev).1.archiveCount = acc.1.archiveCount ∧
    (applyVadEvent cfg chunk now acc ev).1.forcedFlushes = acc.1.forcedFlushes ∧
    (applyVadEvent cfg chunk now acc ev).1.liveJsonPath = acc.1.liveJsonPath :=
  ⟨applyVadEvent_totalSamples cfg chunk now acc ev,
   applyVadEvent_streamStartTime cfg chunk now acc ev,
   applyVadEvent_archiveCount cfg chunk now acc ev,
   applyVadEvent_forcedFlushes cfg chunk now acc ev,
   applyVadEvent_liveJsonPath cfg chunk now acc ev⟩

theorem evFold_archive_fields (cfg : RecConfig) (chunk : Chunk) (now : Nat)
    (evs : List VadEv) : ∀ acc : RecState × Nat,
    (evs.foldl (applyVadEvent cfg chunk now) acc).1.totalSamples = acc.1.totalSamples ∧
    (evs.foldl (applyVadEvent cfg chunk now) acc).1.streamStartTime = acc.1.streamStartTime ∧
    (evs.foldl (applyVadEvent cfg chunk now) acc).1.archiveCount = acc.1.archiveCount ∧
    (evs.foldl (applyVadEvent cfg chunk now) acc).1.forcedFlushes = acc.1.forcedFlushes ∧
    (evs.foldl (applyVadEvent cfg chunk now) acc).1.liveJsonPath = acc.1.liveJsonPath := by
  induction evs with
  | nil => intro acc; simp
  | cons ev rest ih =>
      intro acc
      have h1 := applyVadEvent_archive_fields cfg chunk now acc ev
      have h2 := ih (applyVadEvent cfg chunk now acc ev)
      simp only [List.foldl_cons]
      exact ⟨h2.1.trans h1.1, h2.2.1.trans h1.2.1, h2.2.2.1.trans h1.2.2.1,
        h2.2.2.2.1.trans h1.2.2.2.1, h2.2.2.2.2.trans h1.2.2.2.2⟩

@[simp] theorem speechTailWrite_inSpeech (cfg : RecConfig) (chunk : Chunk) (now cursor : Nat)
    (st1 : RecState) :
    (speechTailWrite cfg chunk now cursor st1).inSpeech = st1.inSpeech := rfl

@[simp] theorem speechTailWrite_totalSamples (cfg : RecConfig) (chunk : Chunk)
    (now cursor : Nat) (st1 : RecState) :
    (speechTailWrite cfg chunk now cursor st1).totalSamples = st1.totalSamples := rfl

@[simp] theorem speechTailWrite_streamStartTime (cfg : RecConfig) (chunk : Chunk)
    (now cursor : Nat) (st1 : RecState) :
    (speechTailWrite cfg chunk now cursor st1).streamStartTime = st1.streamStartTime := rfl

@[simp] theorem speechTailWrite_archiveCount (cfg : RecConfig) (chunk : Chunk)
    (now cursor : Nat) (st1 : RecState) :
    (speechTailWrite cfg chunk now cursor st1).archiveCount = st1.archiveCount := rfl

@[simp] theorem speechTailWrite_forcedFlushes (cfg : RecConfig) (chunk : Chunk)
    (now cursor : Nat) (st1 : RecState) :
    (speechTailWrite cfg chunk now cursor st1).forcedFlushes = st1.forcedFlushes := rfl

@[simp] theorem speechTailWrite_liveJsonPath (cfg : RecConfig) (chunk : Chunk)
    (now cursor : Nat) (st1 : RecState) :
    (speechTailWrite cfg chunk now cursor st1).liveJsonPath = st1.liveJsonPath := rfl

@[simp] theorem speechTailWrite_jobs (cfg : RecConfig) (chunk : Chunk)
    (now cursor : Nat) (st1 : RecState) :
    (speechTailWrite cfg chunk now cursor st1).jobs = st1.jobs := rfl

@[simp] theorem speechTailWrite_pending (cfg : RecConfig) (chunk : Chunk)
    (now cursor : Nat) (st1 : RecState) :
    (speechTailWrite cfg chunk now cursor st1).pending = st1.pending := rfl

@[simp] theorem speechTailWrite_segmentHasTranscripts (cfg : RecConfig) (chunk : Chunk)
    (now cursor : Nat) (st1 : RecState) :
    (speechTailWrite cfg chunk now cursor st1).segmentHasTranscripts =
      st1.segmentHasTranscripts := rfl

@[simp] theorem speechTailWrite_speechStartSample (cfg : RecConfig) (chunk : Chunk)
    (now cursor : Nat) (st1 : RecState) :
    (speechTailWrite cfg chunk now cursor st1).speechStartSample = st1.speechStartSample := rfl

@[simp] theorem speechTailWrite_speechStartTime (cfg : RecConfig) (chunk : Chunk)
    (now cursor : Nat) (st1 : RecState) :
    (speechTailWrite cfg chunk now cursor st1).speechStartTime = st1.speechStartTime := rfl

@[simp] theorem speechTailWrite_pendingEndSample (cfg : RecConfig) (chunk : Chunk)
    (now cursor : Nat) (st1 : RecState) :
    (speechTailWrite cfg chunk now cursor st1).pendingEndSample = st1.pendingEndSample := rfl

@[simp] theorem speechTailWrite_pendingEndTime (cfg : RecConfig) (chunk : Chunk)
    (now cursor : Nat) (st1 : RecState) :
    (speechTailWrite cfg chunk now cursor st1).pendingEndTime = st1.pendingEndTime := rfl

@[simp] theorem speechTailWrite_written (cfg : RecConfig) (chunk : Chunk)
    (now cursor : Nat) (st1 : RecState) :
    (speechTailWrite cfg chunk now cursor st1).written =
      st1.written ++ chunk.drop cursor := rfl

@[simp] theorem speechTailWrite_hadSpeech (cfg : RecConfig) (chunk : Chunk)
    (now cursor : Nat) (st1 : RecState) :
    (speechTailWrite cfg chunk now cursor st1).hadSpeech = true := rfl

@[simp] theorem chunkTail_totalSamples (cfg : RecConfig) (chunk : Chunk) (now cursor : Nat)
    (st1 : RecState) : (chunkTail cfg chunk now cursor st1).totalSamples = st1.totalSamples := by
  unfold chunkTail
  by_cases h1 : st1.inSpeech
  · by_cases h2 : shouldRotateSpeech cfg now (speechTailWrite cfg chunk now cursor st1) <;>
      simp [h1, h2]
  · cases hp : st1.pendingEndTime with
    | none => simp [h1, hp]
    | some t =>
        by_cases h2 : (cfg.minSilenceSamples : Int) ≤ (now : Int) - (t : Int) <;>
          simp [h1, hp, h2]

@[simp] theorem chunkTail_streamStartTime (cfg : RecConfig) (chunk : Chunk) (now cursor : Nat)
    (st1 : RecState) :
    (chunkTail cfg chunk now cursor st1).streamStartTime = st1.streamStartTime := by
  unfold chunkTail
  by_cases h1 : st1.inSpeech
  · by_cases h2 : shouldRotateSpeech cfg now (speechTailWrite cfg chunk now cursor st1) <;>
      simp [h1, h2]
  · cases hp : st1.pendingEndTime with
    | none => simp [h1, hp]
    | some t =>
        by_cases h2 : (cfg.minSilenceSamples : Int) ≤ (now : Int) - (t : Int) <;>
          simp [h1, hp, h2]

@[simp] theorem chunkTail_archiveCount (cfg : RecConfig) (chunk : Chunk) (now cursor : Nat)
    (st1 : RecState) :
    (chunkTail cfg chunk now cursor st1).archiveCount = st1.archiveCount := by
  unfold chunkTail
  by_cases h1 : st1.inSpeech
  · by_cases h2 : shouldRotateSpeech cfg now (speechTailWrite cfg chunk now cursor st1) <;>
      simp [h1, h2]
  · cases hp : st1.pendingEndTime with
    | none => simp [h1, hp]
    | some t =>
        by_cases h2 : (cfg.minSilenceSamples : Int) ≤ (now : Int) - (t : Int) <;>
          simp [h1, hp, h2]

@[simp] theorem chunkTail_liveJsonPath (cfg : RecConfig) (chunk : Chunk) (now cursor : Nat)
    (st1 : RecState) :
    (chunkTail cfg chunk now cursor st1).liveJsonPath = st1.liveJsonPath := by
  unfold chunkTail
  by_cases h1 : st1.inSpeech
  · by_cases h2 : shouldRotateSpeech cfg now (speechTailWrite cfg chunk now cursor st1) <;>
      simp [h1, h2]
  · cases hp : st1.pendingEndTime with
    | none => simp [h1, hp]
    | some t =>
        by_cases h2 : (cfg.minSilenceSamples : Int) ≤ (now : Int) - (t : Int) <;>
          simp [h1, hp, h2]

theorem processChunk_totalSamples (cfg : RecConfig) (st : RecState) (chunk : Chunk)
    (evs : List VadEv) :
    (processChunk cfg st chunk evs).totalSamples = st.totalSamples + chunk.length := by
  have hf := evFold_archive_fields cfg chunk (st.totalSamples + chunk.length) evs (st, 0)
  unfold processChunk
  simp [hf.1]

theorem processChunk_streamStartTime (cfg : RecConfig) (st : RecState) (chunk : Chunk)
    (evs : List VadEv) :
    (processChunk cfg st chunk evs).streamStartTime = st.streamStartTime := by
  have hf := evFold_archive_fields cfg chunk (st.totalSamples + chunk.length) evs (st, 0)
  unfold processChunk
  simp [hf.2.1]

theorem processChunk_archiveCount (cfg : RecConfig) (st : RecState) (chunk : Chunk)
    (evs : List VadEv) :
    (processChunk cfg st chunk evs).archiveCount = st.archiveCount := by
  have hf := evFold_archive_fields cfg chunk (st.totalSamples + chunk.length) evs (st, 0)
  unfold processChunk
  simp [hf.2.2.1]

theorem processChunk_liveJsonPath (cfg : RecConfig) (st : RecState) (chunk : Chunk)
    (evs : List VadEv) :
    (processChunk cfg st chunk evs).liveJsonPath = st.liveJsonPath := by
  have hf := evFold_archive_fields cfg chunk (st.totalSamples + chunk.length) evs (st, 0)
  unfold processChunk
  simp [hf.2.2.2.2]

/-! ## Claim C5 — `total_samples` accounting across rotation (code bug)

`total_samples` does increase monotonically while a segment is open (every
sub-chunk adds `len(chunk)`), and `_reset_stream_state` zeroes it on the
device-error/device-switch path.  But the time-based archive rotation of
`_record_loop` (lines 1063-1065) calls only `_close_stream()` and
`_open_live_file()`, neither of which resets `total_samples`, while
`_open_live_file` does reset `stream_start_time` to the rotation time.  A
speech start after the first rotation therefore gets
`speech_start_sample = old_total + offset` and a derived wall-clock
`stream_start_time + speech_start_sample / rate` that lies one whole
previous-segment length in the future.  The concrete run below: two 2-sample
silent chunks, a rotation at wall time 4, then a chunk with a VAD start at
offset 0.  The claim would require `total_samples = 0` after the rotation and
a derived speech start time of 4 (the rotation instant); the code keeps
`total_samples = 4` and derives 8. -/

/-- Claim C5: `total_samples` grows by exactly one chunk per processed chunk
and `_reset_stream_state` zeroes it, but archive rotation does not reset it,
so the first post-rotation speech start is mis-denominated (code bug). -/
theorem total_samples_rotation_bug :
    (∀ (cfg : RecConfig) (st : RecState) (chunk : Chunk) (evs : List VadEv),
        (processChunk cfg st chunk evs).totalSamples = st.totalSamples + chunk.length)
    ∧ (∀ st : RecState, (resetStreamState st).totalSamples = 0)
    ∧ (∀ (st : RecState) (now : Nat) (p : String),
        (rotateArchive now p st).totalSamples = st.totalSamples)
    ∧ (let cfg : RecConfig :=
        { chunkSamples := 2, maxSpeechSamples := 100, minSilenceSamples := 100,
          hasTranscriber := false }
       let st1 := runTrace cfg (initRecState (some "a.json")) [([0, 0], []), ([0, 0], [])]
       let st2 := rotateArchive 4 "b.json" st1
       let st3 := processChunk cfg st2 [0, 0] [VadEv.vstart 0]
       st2.totalSamples = 4 ∧ st2.streamStartTime = 4 ∧
        st3.speechStartSample = some 4 ∧ st3.speechStartTime = some 8) := by
  refine ⟨?_, ?_, ?_, ?_⟩
  · intro cfg st chunk evs; exact processChunk_totalSamples cfg st chunk evs
  · intro st; simp [resetStreamState]
  · intro st now p; simp [rotateArchive]
  · refine ⟨by decide, by decide, by decide, by decide⟩

/-! ## Claim C7 — auto-switch debounce -/

theorem scanWins_below (conf now w : Nat) (st0 : AutoSwitchState)
    (hc : st0.candidate ≠ some w) :
    ∀ k, 1 ≤ k → k ≤ conf - 1 →
      scanWins conf now w st0 k = { st0 with candidate := some w, hits := k } := by
  intro k
  induction k with
  | zero => omega
  | succ n ih =>
      intro _ hk
      rcases Nat.eq_zero_or_pos n with hn | hn
      · subst hn
        have hfire : ¬ (max 1 conf ≤ 1) := by omega
        simp [scanWins, scanWin, markSwitchCandidate, hc, hfire]
      · have hrec := ih hn (by omega)
        have hfire : ¬ (max 1 conf ≤ n + 1) := by omega
        simp [scanWins, hrec, scanWin, markSwitchCandidate, hfire]

/-- Claim C7: a candidate that wins exactly `auto_switch_confirmations - 1`
consecutive scans never causes a switch; the next consecutive win switches
(device set, switch time recorded, fingerprint cleared,
`DeviceSwitchRequest` raised); a win by a different candidate restarts the
confirmation count at 1. -/
theorem switch_debounce (conf now w : Nat) (st0 : AutoSwitchState)
    (hconf : 1 ≤ conf) (hc : st0.candidate ≠ some w) (hr : st0.raised = false) :
    (∀ k, k ≤ conf - 1 →
      (scanWins conf now w st0 k).raised = false ∧
      (scanWins conf now w st0 k).device = st0.device)
    ∧ ((scanWins conf now w st0 conf).raised = true ∧
       (scanWins conf now w st0 conf).device = some w ∧
       (scanWins conf now w st0 conf).lastSwitchTime = now ∧
       (scanWins conf now w st0 conf).fingerprint = none)
    ∧ (∀ (st : AutoSwitchState) (w' : Nat), st.candidate ≠ some w' →
        (markSwitchCandidate conf st w').1.hits = 1 ∧
        (markSwitchCandidate conf st w').1.candidate = some w') := by
  refine ⟨?_, ?_, ?_⟩
  · intro k hk
    rcases Nat.eq_zero_or_pos k with h0 | h0
    · subst h0; simp [scanWins, hr]
    · rw [scanWins_below conf now w st0 hc k h0 hk]
      simp [hr]
  · obtain ⟨m, rfl⟩ : ∃ m, conf = m + 1 := ⟨conf - 1, by omega⟩
    rcases Nat.eq_zero_or_pos m with hm | hm
    · subst hm
      have hfire : max 1 1 ≤ 1 := by omega
      simp [scanWins, scanWin, markSwitchCandidate, hc, hfire]
    · simp only [scanWins]
      rw [scanWins_below (m + 1) now w st0 hc m hm (by omega)]
      have hfire : max 1 (m + 1) ≤ m + 1 := by omega
      simp [scanWin, markSwitchCandidate, hfire]
  · intro st w' hcw
    simp [markSwitchCandidate, hcw]

/-- Witness for C7 at `confirmations = 2`: one win does not switch, the second
consecutive win by the same device does. -/
theorem switch_debounce_witness :
    (scanWins 2 7 5
      { candidate := none, hits := 0, device := some 0, lastSwitchTime := 0,
        fingerprint := some ("mic", 1), raised := false } 1).raised = false
    ∧ (scanWins 2 7 5
      { candidate := none, hits := 0, device := some 0, lastSwitchTime := 0,
        fingerprint := some ("mic", 1), raised := false } 2).raised = true := by
  have h := switch_debounce 2 7 5
    { candidate := none, hits := 0, device := some 0, lastSwitchTime := 0,
      fingerprint := some ("mic", 1), raised := false }
    (by decide) (by decide) (by decide)
  exact ⟨(h.1 1 (by decide)).1, h.2.1.1⟩

/-! ## Claim C8 — smoothed RMS update -/

/-- Claim C8: for every non-negative previous value and chunk RMS, the update
performed by lines 1010-1017 equals `max(old * 0.85 + x * 0.15, x)`:
instantaneous attack when `x >= old`, exponential release otherwise. -/
theorem rms_smoothing_eq_max (old x : ℚ) (hold : 0 ≤ old) (hx : 0 ≤ x) :
    rmsSmooth old x = max ((85 / 100) * old + (15 / 100) * x) x := by
  unfold rmsSmooth
  by_cases h0 : old ≤ 0
  · have hz : old = 0 := le_antisymm h0 hold
    subst hz
    rw [if_pos le_rfl, max_eq_right (by linarith)]
  · by_cases hatt : old ≤ x
    · rw [if_neg h0, if_pos hatt, max_eq_right (by nlinarith)]
    · rw [if_neg h0, if_neg hatt, max_eq_left (by nlinarith)]

/-- Witness for C8 at `old = 2, x = 1` (release branch). -/
theorem rms_smoothing_eq_max_witness :
    rmsSmooth 2 1 = (37 : ℚ) / 20 ∧ max ((85 / 100) * 2 + (15 / 100) * 1 : ℚ) 1 = 37 / 20 := by
  constructor
  · rw [rms_smoothing_eq_max 2 1 (by norm_num) (by norm_num)]; norm_num
  · norm_num

/-! ## Claim C1 — the close-time status table and the `ok` iff -/

theorem liveFold_status (evs : List LiveEv) : ∀ st : LiveSt,
    ((evs.foldl liveStep st).diskStatus = "ok" ↔
      (st.diskStatus = "ok" ∨ LiveEv.append ∈ evs)) ∧
    ((evs.foldl liveStep st).segHasTranscripts = true ↔
      (st.segHasTranscripts = true ∨ LiveEv.append ∈ evs)) := by
  induction evs with
  | nil => intro st; simp
  | cons ev rest ih =>
      intro st
      have h := ih (liveStep st ev)
      cases ev <;>
        simp only [List.foldl_cons, List.mem_cons, liveStep] at h ⊢ <;>
        rw [h.1, h.2] <;> simp

/-- Claim C1: on close of a live archive the status written by
`_finalize_live_json` is exactly the claimed table — no transcriber:
`pending_asr` when speech was observed else `no_speech`; transcriber:
`ok` when a non-empty transcript was appended for this segment, else
`pending_asr` when jobs are pending, else `no_speech` without speech, else
`no_text` — and consequently a live sidecar ends in `ok` iff at least one
non-empty transcript was appended.  The hypothesis records that the worker
never appends when no transcriber is configured (lines 157-158). -/
theorem final_status_table (hasTr hadSpeech : Bool) (evs : List LiveEv)
    (hguard : hasTr = false → LiveEv.append ∉ evs) :
    closeStatus hasTr hadSpeech (runLive evs) =
      specFinalC1 hasTr hadSpeech (decide (LiveEv.append ∈ evs)) (runLive evs).pending ∧
    (closeStatus hasTr hadSpeech (runLive evs) = "ok" ↔ LiveEv.append ∈ evs) := by
  have h := liveFold_status evs
    { diskStatus := "recording", segHasTranscripts := false, pending := 0 }
  rw [runLive]
  by_cases hm : LiveEv.append ∈ evs
  · have hdisk := h.1.mpr (Or.inr hm)
    cases hasTr
    · exact absurd hm (hguard rfl)
    · constructor
      · simp [closeStatus, finalizeStatus, specFinalC1, hdisk, hm]
      · simp [closeStatus, finalizeStatus, hdisk, hm]
  · have hdisk : ¬ (List.foldl liveStep
        { diskStatus := "recording", segHasTranscripts := false, pending := 0 }
        evs).diskStatus = "ok" := by
      intro hcon
      rcases h.1.mp hcon with h' | h'
      · exact absurd h' (by decide)
      · exact hm h'
    have hseg : (List.foldl liveStep
        { diskStatus := "recording", segHasTranscripts := false, pending := 0 }
        evs).segHasTranscripts = false := by
      cases hsg : (List.foldl liveStep
          { diskStatus := "recording", segHasTranscripts := false, pending := 0 }
          evs).segHasTranscripts
      · rfl
      · rcases h.2.mp hsg with h' | h'
        · exact absurd h' (by decide)
        · exact absurd h' hm
    cases hasTr <;> cases hadSpeech <;>
      by_cases hp : 0 < (List.foldl liveStep
          { diskStatus := "recording", segHasTranscripts := false, pending := 0 }
          evs).pending <;>
        simp [closeStatus, finalizeStatus, specFinalC1, hdisk, hseg, hm, hp]

/-- Witness for C1: one enqueue, one non-empty transcript append, one worker
completion, with a transcriber — the closed sidecar reads `ok`. -/
theorem final_status_table_witness :
    closeStatus true true (runLive [LiveEv.enq, LiveEv.append, LiveEv.done]) = "ok" :=
  ((final_status_table true true [LiveEv.enq, LiveEv.append, LiveEv.done]
      (fun h => Bool.noConfusion h)).2).mpr (by decide)

/-! ## Claim C4 — pending-job accounting -/

theorem pmFind?_pmSet_self (m : List (String × Nat)) (p : String) (n : Nat) :
    pmFind? (pmSet m p n) p = some n := by
  induction m with
  | nil => simp [pmSet, pmFind?]
  | cons x rest ih =>
      by_cases h : x.1 = p <;> simp [pmSet, pmFind?, h, ih]

theorem pmFind?_pmSet_ne (m : List (String × Nat)) (p q : String) (n : Nat)
    (h : q ≠ p) : pmFind? (pmSet m p n) q = pmFind? m q := by
  have hpq : p ≠ q := Ne.symm h
  induction m with
  | nil => simp [pmSet, pmFind?, hpq]
  | cons x rest ih =>
      obtain ⟨a, b⟩ := x
      by_cases hx : a = p
      · subst hx
        simp [pmSet, pmFind?, hpq]
      · simp [pmSet, pmFind?, hx, ih]

theorem pmFind?_pmRemove_ne (m : List (String × Nat)) (p q : String) (h : q ≠ p) :
    pmFind? (pmRemove m p) q = pmFind? m q := by
  have hpq : p ≠ q := Ne.symm h
  induction m with
  | nil => simp [pmRemove]
  | cons x rest ih =>
      obtain ⟨a, b⟩ := x
      by_cases hx : a = p
      · subst hx
        simp [pmRemove, pmFind?, hpq]
      · simp [pmRemove, pmFind?, hx, ih]

theorem pmFind?_eq_none (m : List (String × Nat)) (p : String)
    (h : p ∉ m.map Prod.fst) : pmFind? m p = none := by
  induction m with
  | nil => rfl
  | cons x rest ih =>
      obtain ⟨a, b⟩ := x
      rw [List.map_cons, List.mem_cons] at h
      push_neg at h
      obtain ⟨h1, h2⟩ := h
      simp [pmFind?, Ne.symm h1, ih h2]

theorem mem_pmSet (m : List (String × Nat)) (p : String) (n : Nat) (x : String × Nat)
    (hx : x ∈ pmSet m p n) : x = (p, n) ∨ x ∈ m := by
  induction m with
  | nil => simpa [pmSet] using hx
  | cons y rest ih =>
      by_cases hy : y.1 = p
      · simp only [pmSet, hy, if_true, reduceIte, List.mem_cons] at hx
        rcases hx with hx | hx
        · exact Or.inl hx
        · exact Or.inr (List.mem_cons_of_mem y hx)
      · simp only [pmSet, hy, if_false, reduceIte, List.mem_cons] at hx
        rcases hx with hx | hx
        · exact Or.inr (hx ▸ List.mem_cons_self y rest)
        · rcases ih hx with h | h
          · exact Or.inl h
          · exact Or.inr (List.mem_cons_of_mem y h)

theorem mem_pmRemove (m : List (String × Nat)) (p : String) (x : String × Nat)
    (hx : x ∈ pmRemove m p) : x ∈ m := by
  induction m with
  | nil => simp [pmRemove] at hx
  | cons y rest ih =>
      by_cases hy : y.1 = p
      · simp only [pmRemove, hy, if_true, reduceIte] at hx
        exact List.mem_cons_of_mem y hx
      · simp only [pmRemove, hy, if_false, reduceIte, List.mem_cons] at hx
        rcases hx with hx | hx
        · exact hx ▸ List.mem_cons_self y rest
        · exact List.mem_cons_of_mem y (ih hx)

/-- The dict keys are distinct (true of every Python dict; maintained by the
model's operations). -/
def pmKeysNodup (m : List (String × Nat)) : Prop := (m.map Prod.fst).Nodup

theorem keys_pmSet (m : List (String × Nat)) (p : String) (n : Nat) (q : String)
    (hq : q ∈ (pmSet m p n).map Prod.fst) : q = p ∨ q ∈ m.map Prod.fst := by
  rcases List.mem_map.mp hq with ⟨x, hx, hq'⟩
  rcases mem_pmSet m p n x hx with h | h
  · left; rw [← hq', h]
  · right; exact List.mem_map.mpr ⟨x, h, hq'⟩

theorem pmKeysNodup_pmSet (m : List (String × Nat)) (p : String) (n : Nat)
    (h : pmKeysNodup m) : pmKeysNodup (pmSet m p n) := by
  induction m with
  | nil => simp [pmSet, pmKeysNodup]
  | cons x rest ih =>
      obtain ⟨a, b⟩ := x
      unfold pmKeysNodup at h ⊢
      rw [List.map_cons, List.nodup_cons] at h
      obtain ⟨hx, hrest⟩ := h
      by_cases hq : a = p
      · subst hq
        rw [show pmSet ((a, b) :: rest) a n = (a, n) :: rest from by simp [pmSet]]
        rw [List.map_cons, List.nodup_cons]
        exact ⟨hx, hrest⟩
      · rw [show pmSet ((a, b) :: rest) p n = (a, b) :: pmSet rest p n from by
          simp [pmSet, hq]]
        rw [List.map_cons, List.nodup_cons]
        refine ⟨?_, ih hrest⟩
        intro hc
        rcases keys_pmSet rest p n a hc with h' | h'
        · exact hq h'
        · exact hx h'

theorem pmKeysNodup_pmRemove (m : List (String × Nat)) (p : String)
    (h : pmKeysNodup m) : pmKeysNodup (pmRemove m p) := by
  induction m with
  | nil => simpa [pmRemove] using h
  | cons x rest ih =>
      obtain ⟨a, b⟩ := x
      unfold pmKeysNodup at h ⊢
      rw [List.map_cons, List.nodup_cons] at h
      obtain ⟨hx, hrest⟩ := h
      by_cases hq : a = p
      · subst hq
        rw [show pmRemove ((a, b) :: rest) a = rest from by simp [pmRemove]]
        exact hrest
      · rw [show pmRemove ((a, b) :: rest) p = (a, b) :: pmRemove rest p from by
          simp [pmRemove, hq]]
        rw [List.map_cons, List.nodup_cons]
        refine ⟨?_, ih hrest⟩
        intro hc
        rcases List.mem_map.mp hc with ⟨y, hy, hq'⟩
        exact hx (List.mem_map.mpr ⟨y, mem_pmRemove rest p y hy, hq'⟩)

theorem pmFind?_pmRemove_self (m : List (String × Nat)) (p : String)
    (h : pmKeysNodup m) : pmFind? (pmRemove m p) p = none := by
  induction m with
  | nil => simp [pmRemove, pmFind?]
  | cons x rest ih =>
      obtain ⟨a, b⟩ := x
      unfold pmKeysNodup at h
      rw [List.map_cons, List.nodup_cons] at h
      obtain ⟨hx, hrest⟩ := h
      by_cases hq : a = p
      · subst hq
        rw [show pmRemove ((a, b) :: rest) a = rest from by simp [pmRemove]]
        exact pmFind?_eq_none rest a hx
      · rw [show pmRemove ((a, b) :: rest) p = (a, b) :: pmRemove rest p from by
          simp [pmRemove, hq]]
        rw [show pmFind? ((a, b) :: pmRemove rest p) p
            = if a = p then some b else pmFind? (pmRemove rest p) p from rfl]
        rw [if_neg hq]
        exact ih hrest

theorem pmGet_pmEnqueue_self (m : List (String × Nat)) (p : String) :
    pmGet (pmEnqueue m p) p = pmGet m p + 1 := by
  simp [pmEnqueue, pmGet, pmFind?_pmSet_self]

theorem pmGet_pmEnqueue_ne (m : List (String × Nat)) (p q : String) (h : q ≠ p) :
    pmGet (pmEnqueue m p) q = pmGet m q := by
  simp [pmEnqueue, pmGet, pmFind?_pmSet_ne m p q _ h]

theorem pmGet_pmDone_self (m : List (String × Nat)) (p : String)
    (h : pmKeysNodup m) : pmGet (pmDone m p) p = pmGet m p - 1 := by
  unfold pmDone
  by_cases hpos : (0 : Int) < (pmGet m p : Int) - 1
  · rw [if_pos hpos]
    simp only [pmGet, pmFind?_pmSet_self, Option.getD_some]
    simp only [pmGet] at hpos
    omega
  · rw [if_neg hpos]
    simp only [pmGet, pmFind?_pmRemove_self m p h, Option.getD_none]
    simp only [pmGet] at hpos
    omega

theorem pmGet_pmDone_ne (m : List (String × Nat)) (p q : String) (h : q ≠ p) :
    pmGet (pmDone m p) q = pmGet m q := by
  unfold pmDone
  by_cases hpos : (0 : Int) < (pmGet m p : Int) - 1
  · rw [if_pos hpos]
    simp [pmGet, pmFind?_pmSet_ne m p q _ h]
  · rw [if_neg hpos]
    simp [pmGet, pmFind?_pmRemove_ne m p q h]

theorem runPend_nodup (evs : List PendEv) : pmKeysNodup (runPend evs) := by
  suffices h : ∀ m, pmKeysNodup m → pmKeysNodup (evs.foldl pendStep m) from
    h [] (by simp [pmKeysNodup])
  induction evs with
  | nil => intro m hm; simpa using hm
  | cons ev rest ih =>
      intro m hm
      refine ih (pendStep m ev) ?_
      cases ev with
      | enq p =>
          simp only [pendStep, pmEnqueue]
          exact pmKeysNodup_pmSet m p _ hm
      | done p =>
          simp only [pendStep, pmDone]
          split
          · exact pmKeysNodup_pmSet m p _ hm
          · exact pmKeysNodup_pmRemove m p hm

theorem runPend_pos (evs : List PendEv) : ∀ x ∈ runPend evs, 0 < x.2 := by
  suffices h : ∀ m, (∀ x ∈ m, 0 < x.2) → ∀ x ∈ evs.foldl pendStep m, 0 < x.2 from
    h [] (by simp)
  induction evs with
  | nil => intro m hm; simpa using hm
  | cons ev rest ih =>
      intro m hm
      refine ih (pendStep m ev) ?_
      intro x hx
      cases ev with
      | enq p =>
          simp only [pendStep, pmEnqueue] at hx
          rcases mem_pmSet m p _ x hx with h | h
          · rw [h]; exact Nat.succ_pos _
          · exact hm x h
      | done p =>
          simp only [pendStep, pmDone] at hx
          by_cases hpos : (0 : Int) < (pmGet m p : Int) - 1
          · rw [if_pos hpos] at hx
            rcases mem_pmSet m p _ x hx with h | h
            · rw [h]
              show 0 < ((pmGet m p : Int) - 1).toNat
              omega
            · exact hm x h
          · rw [if_neg hpos] at hx
            exact hm x (mem_pmRemove m p x hx)

theorem countEnq_append (p : String) (xs : List PendEv) (x : PendEv) :
    countEnq p (xs ++ [x]) = countEnq p xs + (if x = .enq p then 1 else 0) := by
  unfold countEnq
  rw [List.filter_append]
  by_cases h : x = .enq p <;> simp [h]

theorem countDone_append (p : String) (xs : List PendEv) (x : PendEv) :
    countDone p (xs ++ [x]) = countDone p xs + (if x = .done p then 1 else 0) := by
  unfold countDone
  rw [List.filter_append]
  by_cases h : x = .done p <;> simp [h]

theorem runPend_balance (p : String) (evs : List PendEv)
    (hpre : ∀ k, k ≤ evs.length → countDone p (evs.take k) ≤ countEnq p (evs.take k)) :
    pmGet (runPend evs) p + countDone p evs = countEnq p evs := by
  induction evs using List.reverseRecOn with
  | nil => simp [runPend, countEnq, countDone, pmGet, pmFind?]
  | append_singleton xs x ih =>
      have hpre' : ∀ k, k ≤ xs.length →
          countDone p (xs.take k) ≤ countEnq p (xs.take k) := by
        intro k hk
        have := hpre k (by simpa using Nat.le_succ_of_le hk)
        rwa [List.take_append_of_le_length hk] at this
      have hbal := ih hpre'
      have hrun : runPend (xs ++ [x]) = pendStep (runPend xs) x := by
        simp [runPend]
      rw [hrun, countEnq_append, countDone_append]
      cases x with
      | enq q =>
          have hne1 : PendEv.enq q ≠ PendEv.done p := fun hc => PendEv.noConfusion hc
          by_cases hq : q = p
          · subst hq
            simp only [pendStep]
            rw [pmGet_pmEnqueue_self]
            simp [hne1]
            omega
          · have hne2 : PendEv.enq q ≠ PendEv.enq p := fun hc => hq (by injection hc)
            simp only [pendStep]
            rw [pmGet_pmEnqueue_ne _ q p (fun hc => hq hc.symm)]
            simp [hne1, hne2]
            omega
      | done q =>
          have hne1 : PendEv.done q ≠ PendEv.enq p := fun hc => PendEv.noConfusion hc
          by_cases hq : q = p
          · subst hq
            have hfull := hpre (xs.length + 1) (by simp)
            rw [List.take_of_length_le (by simp)] at hfull
            rw [countEnq_append, countDone_append] at hfull
            rw [if_pos rfl, if_neg hne1] at hfull
            have hnd := runPend_nodup xs
            simp only [pendStep]
            rw [pmGet_pmDone_self _ q hnd]
            simp [hne1]
            omega
          · have hne2 : PendEv.done q ≠ PendEv.done p := fun hc => hq (by injection hc)
            simp only [pendStep]
            rw [pmGet_pmDone_ne _ q p (fun hc => hq hc.symm)]
            simp [hne1, hne2]
            omega

/-- Claim C4: for each sidecar path, enqueues minus worker completions equals
the stored pending count at every instant (the hypothesis is the queue-order
fact that no prefix completes more jobs than it enqueued); the stored counts
are always positive; the worker decrements after every job it takes — the
returned table is `pmDone` of the old one whatever the transcription outcome,
transcriber presence, failure and empty text included — and the entry is
removed when the count reaches zero. -/
theorem pending_job_accounting (evs : List PendEv) (p : String)
    (hpre : ∀ k, k ≤ evs.length → countDone p (evs.take k) ≤ countEnq p (evs.take k)) :
    pmGet (runPend evs) p + countDone p evs = countEnq p evs
    ∧ (∀ x ∈ runPend evs, 0 < x.2)
    ∧ (∀ (hasTr : Bool) (res : AsrOutcome) (si ei : String) (doc : SidecarDoc)
        (q : String),
        (asrWorkerStep hasTr res si ei doc (runPend evs) q).2 = pmDone (runPend evs) q
        ∧ pmGet ((asrWorkerStep hasTr res si ei doc (runPend evs) q).2) q
            = pmGet (runPend evs) q - 1)
    ∧ (pmGet (runPend evs) p = 1 → pmFind? (pmDone (runPend evs) p) p = none) := by
  refine ⟨runPend_balance p evs hpre, runPend_pos evs, ?_, ?_⟩
  · intro hasTr res si ei doc q
    exact ⟨rfl, pmGet_pmDone_self (runPend evs) q (runPend_nodup evs)⟩
  · intro h1
    have hnd := runPend_nodup evs
    simp only [pmDone, h1]
    rw [if_neg (by norm_num)]
    exact pmFind?_pmRemove_self _ p hnd

/-- Witness for C4: two enqueues and one completion for path `a` leave a
stored count of 1 = 2 - 1. -/
theorem pending_job_accounting_witness :
    pmGet (runPend [PendEv.enq "a", PendEv.enq "a", PendEv.done "a"]) "a" = 1
    ∧ pmGet (runPend [PendEv.enq "a", PendEv.enq "a", PendEv.done "a"]) "a"
        + countDone "a" [PendEv.enq "a", PendEv.enq "a", PendEv.done "a"]
        = countEnq "a" [PendEv.enq "a", PendEv.enq "a", PendEv.done "a"] :=
  ⟨by decide,
   (pending_job_accounting [PendEv.enq "a", PendEv.enq "a", PendEv.done "a"] "a"
      (by decide)).1⟩

/-! ## Claim C9 — an `ok` status is never downgraded -/

/-- Claim C9: `_finalize_live_json` leaves an on-disk `ok` unchanged whatever
the transcriber, `had_speech` and pending-count are, and
`_append_live_segment` always writes `status = "ok"`. -/
theorem ok_status_never_downgraded :
    (∀ (hasTr hadSpeech segHas : Bool) (pending : Nat),
        finalizeStatus (some "ok") hasTr hadSpeech segHas pending = "ok")
    ∧ (∀ (doc : SidecarDoc) (payload : SegPayload),
        (appendLiveSegment doc payload).status = some "ok") := by
  constructor
  · intro hasTr hadSpeech segHas pending
    simp [finalizeStatus]
  · intro doc payload
    rfl

/-! ## Claim C3 — silence is dropped -/

theorem chunkTail_written_of_silent (cfg : RecConfig) (chunk : Chunk) (now cursor : Nat)
    (st1 : RecState) (h : st1.inSpeech = false) :
    (chunkTail cfg chunk now cursor st1).written = st1.written := by
  unfold chunkTail
  simp only [h, Bool.false_eq_true, if_false]
  cases hp : st1.pendingEndTime with
  | none => rfl
  | some t =>
      by_cases h2 : (cfg.minSilenceSamples : Int) ≤ (now : Int) - (t : Int) <;> simp [h2]

theorem chunkTail_hadSpeech_of_silent (cfg : RecConfig) (chunk : Chunk) (now cursor : Nat)
    (st1 : RecState) (h : st1.inSpeech = false) :
    (chunkTail cfg chunk now cursor st1).hadSpeech = st1.hadSpeech := by
  unfold chunkTail
  simp only [h, Bool.false_eq_true, if_false]
  cases hp : st1.pendingEndTime with
  | none => rfl
  | some t =>
      by_cases h2 : (cfg.minSilenceSamples : Int) ≤ (now : Int) - (t : Int) <;> simp [h2]

theorem chunkTail_inSpeech_of_silent (cfg : RecConfig) (chunk : Chunk) (now cursor : Nat)
    (st1 : RecState) (h : st1.inSpeech = false) :
    (chunkTail cfg chunk now cursor st1).inSpeech = false := by
  unfold chunkTail
  simp only [h, Bool.false_eq_true, if_false]
  cases hp : st1.pendingEndTime with
  | none => exact h
  | some t =>
      by_cases h2 : (cfg.minSilenceSamples : Int) ≤ (now : Int) - (t : Int) <;> simp [h2, h]

/-- A chunk on which the VAD returned no events, processed out of speech with
no pending end, only advances `total_samples`. -/
theorem processChunk_silent_eq (cfg : RecConfig) (st : RecState) (chunk : Chunk)
    (h1 : st.inSpeech = false) (h2 : st.pendingEndTime = none) :
    processChunk cfg st chunk [] =
      { st with totalSamples := st.totalSamples + chunk.length } := by
  unfold processChunk chunkTail
  simp [h1, h2]

theorem runTrace_silent (cfg : RecConfig) (trace : List (Chunk × List VadEv))
    (hsil : ∀ ce ∈ trace, ce.2 = ([] : List VadEv)) :
    ∀ st : RecState, st.inSpeech = false → st.pendingEndTime = none →
    runTrace cfg st trace =
      { st with totalSamples :=
          st.totalSamples + (trace.map (fun ce => ce.1.length)).sum } := by
  induction trace with
  | nil =>
      intro st h1 h2
      simp [runTrace]
  | cons ce rest ih =>
      intro st h1 h2
      have hce : ce.2 = [] := hsil ce (List.mem_cons_self ce rest)
      have hstep := processChunk_silent_eq cfg st ce.1 h1 h2
      have hrun : runTrace cfg st (ce :: rest) =
          runTrace cfg (processChunk cfg st ce.1 ce.2) rest := rfl
      rw [hrun, hce, hstep,
        ih (fun x hx => hsil x (List.mem_cons_of_mem ce hx))
          { st with totalSamples := st.totalSamples + ce.1.length } h1 h2]
      simp [Nat.add_assoc]

/-- Claim C3: a block with no VAD events processed out of speech writes zero
samples to the PCM writer and leaves `had_speech` unchanged (so it remains
false); a segment closed after only such input gets status `no_speech`,
whether or not a transcriber is configured. -/
theorem silence_dropped (cfg : RecConfig) :
    (∀ (st : RecState) (chunk : Chunk), st.inSpeech = false →
        (processChunk cfg st chunk []).written = st.written ∧
        (processChunk cfg st chunk []).hadSpeech = st.hadSpeech)
    ∧ (∀ (path : Option String) (q : String) (trace : List (Chunk × List VadEv)),
        (∀ ce ∈ trace, ce.2 = ([] : List VadEv)) →
        (runTrace cfg (initRecState path) trace).written = [] ∧
        (runTrace cfg (initRecState path) trace).hadSpeech = false ∧
        finalizeStatus (some "recording") cfg.hasTranscriber
          (runTrace cfg (initRecState path) trace).hadSpeech
          (runTrace cfg (initRecState path) trace).segmentHasTranscripts
          (pmGet (runTrace cfg (initRecState path) trace).pending q) = "no_speech") := by
  constructor
  · intro st chunk hin
    unfold processChunk
    simp only [List.foldl_nil]
    exact ⟨chunkTail_written_of_silent cfg chunk _ 0 st hin,
      chunkTail_hadSpeech_of_silent cfg chunk _ 0 st hin⟩
  · intro path q trace hsil
    rw [runTrace_silent cfg trace hsil (initRecState path) rfl rfl]
    refine ⟨rfl, rfl, ?_⟩
    cases cfg.hasTranscriber <;> simp [finalizeStatus, initRecState, pmGet, pmFind?]

/-- Witness for C3: two silent 2-sample chunks with a transcriber configured
produce an empty PCM stream and a `no_speech` close. -/
theorem silence_dropped_witness :
    (runTrace ⟨2, 100, 100, true⟩
      (initRecState (some "a.json")) [([0, 0], []), ([5, 5], [])]).written = []
    ∧ finalizeStatus (some "recording") true
        (runTrace ⟨2, 100, 100, true⟩
          (initRecState (some "a.json")) [([0, 0], []), ([5, 5], [])]).hadSpeech
        (runTrace ⟨2, 100, 100, true⟩
          (initRecState (some "a.json")) [([0, 0], []), ([5, 5], [])]).segmentHasTranscripts
        (pmGet (runTrace ⟨2, 100, 100, true⟩
          (initRecState (some "a.json")) [([0, 0], []), ([5, 5], [])]).pending "a.json")
        = "no_speech" := by
  have h := (silence_dropped ⟨2, 100, 100, true⟩).2 (some "a.json") "a.json"
    [([0, 0], []), ([5, 5], [])] (by decide)
  exact ⟨h.1, h.2.2⟩

/-! ## Claim C2 — speech continuity: slice algebra -/

theorem drop_append_len (l m : List Sample) (n : Nat) :
    (l ++ m).drop (l.length + n) = m.drop n := by
  rw [List.drop_append]

theorem slice_stable (l m : List Sample) (a b : Nat) (hb : b ≤ l.length) :
    ((l ++ m).drop a).take (b - a) = (l.drop a).take (b - a) := by
  by_cases ha : a ≤ l.length
  · rw [List.drop_append_of_le_length ha, List.take_append_of_le_length]
    simp only [List.length_drop]
    omega
  · have hz : b - a = 0 := by omega
    simp [hz]

theorem slice_glue (l : List Sample) (a b c : Nat) (hab : a ≤ b) (hbc : b ≤ c) :
    (l.drop a).take (b - a) ++ (l.drop b).take (c - b) = (l.drop a).take (c - a) := by
  have h1 : c - a = (b - a) + (c - b) := by omega
  rw [h1, List.take_add]
  congr 2
  rw [List.drop_drop]
  congr 1
  omega

theorem drop_glue (l : List Sample) (a b : Nat) (hab : a ≤ b) :
    (l.drop a).take (b - a) ++ l.drop b = l.drop a := by
  conv_rhs => rw [← List.take_append_drop (b - a) (l.drop a)]
  congr 1
  rw [List.drop_drop]
  congr 1
  omega

theorem take_full_drop (l m : List Sample) (a : Nat) :
    ((l ++ m).drop a).take (l.length - a) = l.drop a := by
  rw [slice_stable l m a l.length le_rfl]
  exact List.take_of_length_le (by simp)

theorem sliceStream_stable (l m : List Sample) (ivs : List (Nat × Nat))
    (h : ∀ iv ∈ ivs, iv.2 ≤ l.length) :
    ivs.map (sliceStream (l ++ m)) = ivs.map (sliceStream l) := by
  refine List.map_congr_left ?_
  intro iv hiv
  exact slice_stable l m iv.1 iv.2 (h iv hiv)

/-! ## Claim C2 — the reference VAD state tracks the well-formedness state -/

theorem vadRefFold_vadIn (evs : List VadEv) : ∀ r : VadRef,
    (evs.foldl vadRefEvent r).vadIn = evsVadEnd r.vadIn evs := by
  induction evs with
  | nil => intro r; rfl
  | cons ev rest ih =>
      intro r
      cases ev with
      | vstart s =>
          by_cases h : r.vadIn <;>
            simp [List.foldl_cons, vadRefEvent, evsVadEnd, h, ih]
      | vend e =>
          by_cases h : r.vadIn <;>
            simp [List.foldl_cons, vadRefEvent, evsVadEnd, h, ih]

theorem vadRefChunk_vadIn (r : VadRef) (ce : Chunk × List VadEv) :
    (vadRefChunk r ce).vadIn = evsVadEnd r.vadIn ce.2 := by
  unfold vadRefChunk
  exact vadRefFold_vadIn ce.2 r

/-! ## Claim C2 — forced-flush counting -/

theorem chunkTail_forcedFlushes_mono (cfg : RecConfig) (chunk : Chunk) (now cursor : Nat)
    (st1 : RecState) :
    st1.forcedFlushes ≤ (chunkTail cfg chunk now cursor st1).forcedFlushes := by
  unfold chunkTail
  by_cases h1 : st1.inSpeech
  · by_cases h2 : shouldRotateSpeech cfg now (speechTailWrite cfg chunk now cursor st1) <;>
      simp [h1, h2]
  · cases hp : st1.pendingEndTime with
    | none => simp [h1]
    | some t =>
        by_cases h2 : (cfg.minSilenceSamples : Int) ≤ (now : Int) - (t : Int) <;>
          simp [h1, hp, h2]

theorem chunkTail_flush_increments (cfg : RecConfig) (chunk : Chunk) (now cursor : Nat)
    (st1 : RecState) (h1 : st1.inSpeech = true)
    (h2 : shouldRotateSpeech cfg now (speechTailWrite cfg chunk now cursor st1) = true) :
    (chunkTail cfg chunk now cursor st1).forcedFlushes = st1.forcedFlushes + 1 := by
  unfold chunkTail
  simp [h1, h2]

theorem chunkTail_eq_of_no_flush (cfg : RecConfig) (chunk : Chunk) (now cursor : Nat)
    (st1 : RecState) (h1 : st1.inSpeech = true)
    (h2 : shouldRotateSpeech cfg now (speechTailWrite cfg chunk now cursor st1) = false) :
    chunkTail cfg chunk now cursor st1 = speechTailWrite cfg chunk now cursor st1 := by
  unfold chunkTail
  simp [h1, h2]

theorem evFold_forcedFlushes (cfg : RecConfig) (chunk : Chunk) (now : Nat)
    (evs : List VadEv) (acc : RecState × Nat) :
    (evs.foldl (applyVadEvent cfg chunk now) acc).1.forcedFlushes = acc.1.forcedFlushes :=
  (evFold_archive_fields cfg chunk now evs acc).2.2.2.1

theorem processChunk_forcedFlushes_eq (cfg : RecConfig) (st : RecState) (chunk : Chunk)
    (evs : List VadEv) :
    (processChunk cfg st chunk evs).forcedFlushes =
      (chunkTail cfg chunk (st.totalSamples + chunk.length)
        (evs.foldl (applyVadEvent cfg chunk (st.totalSamples + chunk.length)) (st, 0)).2
        (evs.foldl (applyVadEvent cfg chunk (st.totalSamples + chunk.length)) (st, 0)).1
        ).forcedFlushes := rfl

theorem processChunk_forcedFlushes_mono (cfg : RecConfig) (st : RecState) (chunk : Chunk)
    (evs : List VadEv) :
    st.forcedFlushes ≤ (processChunk cfg st chunk evs).forcedFlushes := by
  rw [processChunk_forcedFlushes_eq]
  calc st.forcedFlushes
      = (evs.foldl (applyVadEvent cfg chunk (st.totalSamples + chunk.length))
          (st, 0)).1.forcedFlushes := (evFold_forcedFlushes cfg chunk _ evs (st, 0)).symm
    _ ≤ _ := chunkTail_forcedFlushes_mono cfg chunk _ _ _

theorem runTrace_forcedFlushes_mono (cfg : RecConfig) (trace : List (Chunk × List VadEv)) :
    ∀ st : RecState, st.forcedFlushes ≤ (runTrace cfg st trace).forcedFlushes := by
  induction trace with
  | nil => intro st; exact le_rfl
  | cons ce rest ih =>
      intro st
      exact le_trans (processChunk_forcedFlushes_mono cfg st ce.1 ce.2)
        (ih (processChunk cfg st ce.1 ce.2))

/-! ## Claim C2 — the event walk preserves the continuity invariant -/

theorem contInvC_fold (cfg : RecConfig) (stream chunk : List Sample) (now : Nat)
    (evs : List VadEv) :
    ∀ (st : RecState) (r : VadRef) (cursor : Nat),
    ContInvC stream chunk st r cursor →
    chunkEvsOk cfg.chunkSamples st.inSpeech cursor evs = true →
    chunk.length = cfg.chunkSamples →
    ContInvC stream chunk
      (evs.foldl (applyVadEvent cfg chunk now) (st, cursor)).1
      (evs.foldl vadRefEvent r)
      (evs.foldl (applyVadEvent cfg chunk now) (st, cursor)).2 := by
  induction evs with
  | nil => intro st r cursor hinv _ _; exact hinv
  | cons ev rest ih =>
      intro st r cursor hinv hwf hlen
      obtain ⟨hin, htot, hrtot, hcur, hivs, hopen, hwrit⟩ := hinv
      cases ev with
      | vstart s =>
          simp only [chunkEvsOk, Bool.and_eq_true, Bool.not_eq_true',
            decide_eq_true_eq] at hwf
          obtain ⟨⟨⟨hf, hcs⟩, hslt⟩, hrest⟩ := hwf
          have hrv : r.vadIn = false := hin ▸ hf
          rw [List.foldl_cons, List.foldl_cons]
          simp only [applyVadEvent, vadRefEvent, hf, hrv, Bool.false_eq_true, if_false]
          refine ih _ _ _ ⟨rfl, htot, hrtot, by omega, ?_, ?_, ?_⟩ hrest hlen
          · intro iv hiv
            have h' := hivs iv hiv
            exact ⟨h'.1, by omega⟩
          · intro _
            simp only [hrtot]
            omega
          · show st.written = _
            simp only [hwrit, hrv, Bool.false_eq_true, if_false, if_true,
              List.append_nil, hrtot, Nat.sub_self, List.take_zero]
      | vend e =>
          simp only [chunkEvsOk, Bool.and_eq_true, decide_eq_true_eq] at hwf
          obtain ⟨⟨⟨ht, hce⟩, hecs⟩, hrest⟩ := hwf
          have hrv : r.vadIn = true := hin ▸ ht
          have ho : r.openStart ≤ stream.length + cursor := hopen hrv
          rw [List.foldl_cons, List.foldl_cons]
          simp only [applyVadEvent, vadRefEvent, ht, hrv, if_true]
          refine ih _ _ _ ⟨rfl, htot, hrtot, by omega, ?_, ?_, ?_⟩ hrest hlen
          · intro iv hiv
            rcases List.mem_append.mp hiv with h' | h'
            · have h'' := hivs iv h'
              exact ⟨h''.1, by omega⟩
            · rcases List.mem_singleton.mp h' with rfl
              simp only [hrtot]
              exact ⟨by omega, by omega⟩
          · intro hc
            exact absurd hc (by simp)
          · show st.written ++ (chunk.drop cursor).take (e - cursor) = _
            simp only [hwrit, hrv, if_true, Bool.false_eq_true, if_false,
              List.map_append, List.flatten_append, List.map_cons, List.map_nil,
              List.flatten_cons, List.flatten_nil, List.append_nil, List.append_assoc]
            congr 1
            have hslice : (chunk.drop cursor).take (e - cursor) =
                ((stream ++ chunk).drop (stream.length + cursor)).take
                  ((stream.length + e) - (stream.length + cursor)) := by
              rw [drop_append_len]
              congr 1
              omega
            rw [hslice, slice_glue (stream ++ chunk) r.openStart
              (stream.length + cursor) (stream.length + e) ho (by omega)]
            simp [sliceStream, hrtot]

/-! ## Claim C2 — one chunk preserves the continuity invariant -/

theorem contInv_to_c (stream chunk : List Sample) (st : RecState) (r : VadRef)
    (hinv : ContInv stream st r) : ContInvC stream chunk st r 0 := by
  obtain ⟨hin, htot, hrtot, hivs, hopen, hwrit⟩ := hinv
  refine ⟨hin, htot, hrtot, Nat.zero_le _, ?_, ?_, ?_⟩
  · intro iv hiv
    have h' := hivs iv hiv
    exact ⟨h'.1, by omega⟩
  · intro h
    have := hopen h
    omega
  · rw [hwrit]
    congr 1
    · rw [sliceStream_stable stream chunk r.ivs (fun iv hiv => (hivs iv hiv).2)]
    · by_cases hv : r.vadIn
      · simp only [hv, if_true]
        have hz : stream.length + 0 - r.openStart = stream.length - r.openStart := by
          omega
        rw [hz, ← take_full_drop stream chunk r.openStart]
      · simp [hv]

theorem contInv_step (cfg : RecConfig) (stream : List Sample) (st : RecState) (r : VadRef)
    (chunk : Chunk) (evs : List VadEv)
    (hlen : chunk.length = cfg.chunkSamples)
    (hwf : chunkEvsOk cfg.chunkSamples st.inSpeech 0 evs = true)
    (hinv : ContInv stream st r)
    (hnf : (processChunk cfg st chunk evs).forcedFlushes = st.forcedFlushes) :
    ContInv (stream ++ chunk) (processChunk cfg st chunk evs)
      (vadRefChunk r (chunk, evs)) := by
  have hfold := contInvC_fold cfg stream chunk (st.totalSamples + chunk.length) evs
    st r 0 (contInv_to_c stream chunk st r hinv) hwf hlen
  obtain ⟨hin1, htot1, hrtot1, hcur1, hivs1, hopen1, hwrit1⟩ := hfold
  have hffold := evFold_forcedFlushes cfg chunk (st.totalSamples + chunk.length) evs (st, 0)
  set st1 : RecState :=
    (evs.foldl (applyVadEvent cfg chunk (st.totalSamples + chunk.length)) (st, 0)).1
    with hst1
  set cursor : Nat :=
    (evs.foldl (applyVadEvent cfg chunk (st.totalSamples + chunk.length)) (st, 0)).2
    with hcursor
  set r1 : VadRef := evs.foldl vadRefEvent r with hr1
  have hproc : processChunk cfg st chunk evs =
      { chunkTail cfg chunk (st.totalSamples + chunk.length) cursor st1 with
          totalSamples :=
            (chunkTail cfg chunk (st.totalSamples + chunk.length) cursor st1).totalSamples
              + chunk.length } := rfl
  have href : vadRefChunk r (chunk, evs) = { r1 with total := r1.total + chunk.length } :=
    rfl
  by_cases hsp : st1.inSpeech = true
  · have hrv1 : r1.vadIn = true := hin1 ▸ hsp
    by_cases hrot : shouldRotateSpeech cfg (st.totalSamples + chunk.length)
        (speechTailWrite cfg chunk (st.totalSamples + chunk.length) cursor st1) = true
    · exfalso
      have hup := chunkTail_flush_increments cfg chunk (st.totalSamples + chunk.length)
        cursor st1 hsp hrot
      have hcc : (chunkTail cfg chunk (st.totalSamples + chunk.length) cursor
          st1).forcedFlushes = st.forcedFlushes := by
        rw [hproc] at hnf
        exact hnf
      have hffold' : st1.forcedFlushes = st.forcedFlushes := hffold
      omega
    · have heq := chunkTail_eq_of_no_flush cfg chunk (st.totalSamples + chunk.length)
        cursor st1 hsp (by simpa using hrot)
      rw [hproc, heq, href]
      have hoo : r1.openStart ≤ stream.length + cursor := hopen1 hrv1
      refine ⟨by simpa using hsp ▸ hin1, ?_, ?_, ?_, ?_, ?_⟩
      · simp [htot1, hlen]
      · simp [hrtot1, hlen]
      · intro iv hiv
        have h' := hivs1 iv hiv
        simp only [List.length_append]
        exact ⟨h'.1, by omega⟩
      · intro _
        simp only [List.length_append]
        omega
      · show st1.written ++ chunk.drop cursor = _
        rw [hwrit1]
        simp only [hrv1, if_true]
        rw [List.append_assoc]
        congr 1
        have hdc : chunk.drop cursor = (stream ++ chunk).drop (stream.length + cursor) :=
          (drop_append_len stream chunk cursor).symm
        rw [hdc]
        exact drop_glue (stream ++ chunk) r1.openStart (stream.length + cursor) hoo
  · have hspf : st1.inSpeech = false := by simpa using hsp
    have hrv1 : r1.vadIn = false := hin1 ▸ hspf
    rw [hproc, href]
    refine ⟨?_, ?_, ?_, ?_, ?_, ?_⟩
    · show (chunkTail cfg chunk (st.totalSamples + chunk.length) cursor st1).inSpeech
        = r1.vadIn
      rw [chunkTail_inSpeech_of_silent cfg chunk _ cursor st1 hspf, hrv1]
    · simp [htot1, hlen]
    · simp [hrtot1, hlen]
    · intro iv hiv
      have h' := hivs1 iv hiv
      simp only [List.length_append]
      exact ⟨h'.1, by omega⟩
    · intro hc
      exact absurd hc (by simp [hrv1])
    · show (chunkTail cfg chunk (st.totalSamples + chunk.length) cursor st1).written = _
      rw [chunkTail_written_of_silent cfg chunk _ cursor st1 hspf, hwrit1]
      simp [hrv1]

/-! ## Claim C2 — the whole trace preserves the continuity invariant -/

theorem contInv_run (cfg : RecConfig) (trace : List (Chunk × List VadEv)) :
    ∀ (stream : List Sample) (st : RecState) (r : VadRef),
    traceOk cfg.chunkSamples st.inSpeech trace = true →
    st.inSpeech = r.vadIn →
    ContInv stream st r →
    (runTrace cfg st trace).forcedFlushes = st.forcedFlushes →
    ContInv (stream ++ fullStream trace) (runTrace cfg st trace)
      (trace.foldl vadRefChunk r) := by
  induction trace with
  | nil =>
      intro stream st r _ _ hinv _
      simpa [runTrace, fullStream] using hinv
  | cons ce rest ih =>
      intro stream st r hwf hin hinv hnf
      obtain ⟨chunk, evs⟩ := ce
      simp only [traceOk, Bool.and_eq_true, decide_eq_true_eq] at hwf
      obtain ⟨⟨hlen, hevs⟩, hrest⟩ := hwf
      have hrun : runTrace cfg st ((chunk, evs) :: rest) =
          runTrace cfg (processChunk cfg st chunk evs) rest := rfl
      have hmono1 := processChunk_forcedFlushes_mono cfg st chunk evs
      have hmono2 := runTrace_forcedFlushes_mono cfg rest (processChunk cfg st chunk evs)
      rw [hrun] at hnf ⊢
      have hnf1 : (processChunk cfg st chunk evs).forcedFlushes = st.forcedFlushes := by
        omega
      have hnf2 : (runTrace cfg (processChunk cfg st chunk evs) rest).forcedFlushes =
          (processChunk cfg st chunk evs).forcedFlushes := by
        omega
      have hstep := contInv_step cfg stream st r chunk evs hlen hevs hinv hnf1
      have hin' : (processChunk cfg st chunk evs).inSpeech =
          (vadRefChunk r (chunk, evs)).vadIn := hstep.1
      have hvadend : (vadRefChunk r (chunk, evs)).vadIn = evsVadEnd st.inSpeech evs := by
        rw [vadRefChunk_vadIn, hin]
      have hrest' : traceOk cfg.chunkSamples
          (processChunk cfg st chunk evs).inSpeech rest = true := by
        rw [hin', hvadend]
        exact hrest
      have hres := ih (stream ++ chunk) (processChunk cfg st chunk evs)
        (vadRefChunk r (chunk, evs)) hrest' hin' hstep hnf2
      have hfs : (stream ++ chunk) ++ fullStream rest =
          stream ++ fullStream ((chunk, evs) :: rest) := by
        simp [fullStream]
      rw [← hfs]
      exact hres

/-- Claim C2 as amended: for every well-formed VAD event stream processed
without a forced speech flush (no continuous speech run reaching
`max_speech_segment_seconds`), the samples written to the PCM writer equal the
in-order concatenation of the intervals `[start_i, end_i)` the VAD marked as
speech, with no overlap and no gap, including runs continuing across chunk
boundaries.  The claim's further clause — continuity *across a forced speech
flush* — is false on the code (see the counterexample): the flush calls
`_reset_speech_state`, so the recorder leaves speech mode while the VAD stays
in it, and the samples between the flush and the next VAD event are dropped
from the PCM file. -/
theorem speech_continuity_no_flush (cfg : RecConfig) (path : Option String)
    (trace : List (Chunk × List VadEv))
    (hwf : traceOk cfg.chunkSamples false trace = true)
    (hnf : (runTrace cfg (initRecState path) trace).forcedFlushes = 0) :
    (runTrace cfg (initRecState path) trace).written = vadSpeechSamples trace := by
  have hinit : ContInv [] (initRecState path)
      { vadIn := false, openStart := 0, total := 0, ivs := [] } := by
    refine ⟨rfl, rfl, rfl, ?_, ?_, ?_⟩ <;> simp [initRecState]
  have hrun := contInv_run cfg trace [] (initRecState path)
    { vadIn := false, openStart := 0, total := 0, ivs := [] } hwf rfl hinit hnf
  obtain ⟨-, -, -, -, -, hwr⟩ := hrun
  rw [hwr]
  simp [vadSpeechSamples, vadRefRun]

/-- Counterexample to claim C2 as stated: a speech run that reaches the cap
(two samples here) triggers the forced flush; the VAD never re-emits a start,
so the rest of the run — which the VAD still marks as speech — never reaches
the PCM writer.  The trace is well-formed, the VAD marked `[0, 6)` as speech,
but only the first chunk was written. -/
theorem speech_continuity_flush_gap_cex :
    traceOk 2 false
      [([10, 11], [VadEv.vstart 0]), ([12, 13], []), ([14, 15], [VadEv.vend 2])] = true
    ∧ (runTrace ⟨2, 2, 1000, false⟩ (initRecState (some "a.json"))
        [([10, 11], [VadEv.vstart 0]), ([12, 13], []),
          ([14, 15], [VadEv.vend 2])]).written = [10, 11]
    ∧ vadSpeechSamples
        [([10, 11], [VadEv.vstart 0]), ([12, 13], []), ([14, 15], [VadEv.vend 2])]
      = [10, 11, 12, 13, 14, 15]
    ∧ (runTrace ⟨2, 2, 1000, false⟩ (initRecState (some "a.json"))
        [([10, 11], [VadEv.vstart 0]), ([12, 13], []),
          ([14, 15], [VadEv.vend 2])]).written
      ≠ vadSpeechSamples
          [([10, 11], [VadEv.vstart 0]), ([12, 13], []), ([14, 15], [VadEv.vend 2])] :=
  ⟨by decide, by decide, by decide, by decide⟩

/-- Witness for the amended C2: one utterance spanning a chunk boundary, no
flush; the PCM stream equals the VAD-marked samples. -/
theorem speech_continuity_no_flush_witness :
    traceOk 2 false [([1, 2], [VadEv.vstart 0]), ([3, 4], [VadEv.vend 1])] = true
    ∧ (runTrace ⟨2, 100, 100, true⟩ (initRecState (some "a.json"))
        [([1, 2], [VadEv.vstart 0]), ([3, 4], [VadEv.vend 1])]).forcedFlushes = 0
    ∧ (runTrace ⟨2, 100, 100, true⟩ (initRecState (some "a.json"))
        [([1, 2], [VadEv.vstart 0]), ([3, 4], [VadEv.vend 1])]).written
      = vadSpeechSamples [([1, 2], [VadEv.vstart 0]), ([3, 4], [VadEv.vend 1])] :=
  ⟨by decide, by decide,
   speech_continuity_no_flush ⟨2, 100, 100, true⟩ (some "a.json")
     [([1, 2], [VadEv.vstart 0]), ([3, 4], [VadEv.vend 1])] (by decide) (by decide)⟩

/-! ## Claim C6 — forced speech flush -/

theorem finalize_jobs_eq (cfg : RecConfig) (e : Nat) (st : RecState) (p : String)
    (htr : cfg.hasTranscriber = true) (hb : st.speechBuffer ≠ [])
    (hpath : st.liveJsonPath = some p) :
    (finalizeSpeechSegment cfg e st).jobs =
      st.jobs ++ [{ audio := st.speechBuffer.flatten,
                    startSample := st.speechStartSample.getD 0,
                    endSample := e, jsonPath := p }] := by
  unfold finalizeSpeechSegment
  rw [if_neg (by simpa [List.isEmpty_iff] using hb), if_neg (by simp [htr])]
  simp [queueAsrSegment, htr, hpath]

/-- One in-speech chunk tail (cursor at `cursor`, no VAD events left): either
the run stays open below the cap, or the forced flush fires and produces the
single capped job. -/
theorem speechRun_tail (cfg : RecConfig) (p : String) (s : Nat) (st1 : RecState)
    (chunk : Chunk) (cursor : Nat)
    (htr : cfg.hasTranscriber = true)
    (hlen : chunk.length = cfg.chunkSamples)
    (h_in : st1.inSpeech = true)
    (h_ss : st1.speechStartSample = some s)
    (h_st : st1.speechStartTime = some s)
    (h_flat : st1.speechBuffer.flatten.length = st1.totalSamples + cursor - s)
    (h_sle : s ≤ st1.totalSamples + cursor)
    (h_cur : cursor ≤ chunk.length)
    (h_pre : st1.totalSamples + cursor - s < cfg.maxSpeechSamples)
    (h_jobs : st1.jobs = [])
    (h_path : st1.liveJsonPath = some p)
    (h_stream : st1.streamStartTime = 0)
    (h_pend : st1.pendingEndTime = none)
    (h_arch : st1.archiveCount = 0) :
    SpeechRunInv cfg p s
      { chunkTail cfg chunk (st1.totalSamples + chunk.length) cursor st1 with
        totalSamples := st1.totalSamples + chunk.length }
    ∨ FlushedRunInv cfg
      { chunkTail cfg chunk (st1.totalSamples + chunk.length) cursor st1 with
        totalSamples := st1.totalSamples + chunk.length } := by
  have hstW : (speechTailWrite cfg chunk (st1.totalSamples + chunk.length) cursor
      st1).speechStartTime = some s := by simp [h_st]
  by_cases hrot : shouldRotateSpeech cfg (st1.totalSamples + chunk.length)
      (speechTailWrite cfg chunk (st1.totalSamples + chunk.length) cursor st1) = true
  · right
    have hct : chunkTail cfg chunk (st1.totalSamples + chunk.length) cursor st1 =
        { finalizeSpeechSegment cfg
            ((speechTailWrite cfg chunk (st1.totalSamples + chunk.length) cursor
              st1).totalSamples + chunk.length)
            (speechTailWrite cfg chunk (st1.totalSamples + chunk.length) cursor st1) with
          forcedFlushes :=
            (speechTailWrite cfg chunk (st1.totalSamples + chunk.length) cursor
              st1).forcedFlushes + 1 } := by
      unfold chunkTail
      simp [h_in, hrot]
    have hbufW : (speechTailWrite cfg chunk (st1.totalSamples + chunk.length) cursor
        st1).speechBuffer = st1.speechBuffer ++ [chunk.drop cursor] := by
      simp [speechTailWrite, htr]
    have hjobsW := finalize_jobs_eq cfg
      ((speechTailWrite cfg chunk (st1.totalSamples + chunk.length) cursor
        st1).totalSamples + chunk.length)
      (speechTailWrite cfg chunk (st1.totalSamples + chunk.length) cursor st1) p htr
      (by rw [hbufW]; simp)
      (by simp [h_path])
    rw [hbufW] at hjobsW
    have hjlen : (st1.speechBuffer ++ [chunk.drop cursor]).flatten.length =
        st1.totalSamples + chunk.length - s := by
      simp only [List.flatten_append, List.length_append, List.flatten_cons,
        List.flatten_nil, List.append_nil, List.length_drop, h_flat]
      omega
    have hcap : cfg.maxSpeechSamples ≤ st1.totalSamples + chunk.length - s := by
      unfold shouldRotateSpeech at hrot
      rw [hstW] at hrot
      simp only [decide_eq_true_eq] at hrot
      omega
    rw [hct]
    refine ⟨?_, ?_, ?_, ?_, ?_⟩
    · show (finalizeSpeechSegment cfg _ _).inSpeech = false
      simp
    · show (finalizeSpeechSegment cfg _ _).pendingEndTime = none
      simp
    · show (finalizeSpeechSegment cfg _ _).jobs.length = 1
      rw [hjobsW]
      simp [speechTailWrite, h_jobs]
    · intro j hj
      have hj' : j ∈ (finalizeSpeechSegment cfg _ _).jobs := hj
      rw [hjobsW] at hj'
      simp only [speechTailWrite, h_jobs, List.nil_append, List.mem_singleton] at hj'
      subst hj'
      simp only [hjlen]
      constructor
      · exact hcap
      · omega
    · show (finalizeSpeechSegment cfg _ _).archiveCount = 0
      simp [speechTailWrite, h_arch]
  · left
    have hct := chunkTail_eq_of_no_flush cfg chunk (st1.totalSamples + chunk.length)
      cursor st1 h_in (by simpa using hrot)
    have hnorot : ¬ ((cfg.maxSpeechSamples : Int) ≤
        ((st1.totalSamples + chunk.length : Nat) : Int) - (s : Int)) := by
      unfold shouldRotateSpeech at hrot
      rw [hstW] at hrot
      simpa using hrot
    rw [hct]
    refine ⟨by simp [h_in], by simp [h_ss], by simp [h_st], ?_,
      ?_, (show s ≤ st1.totalSamples + chunk.length by omega), ?_,
      by simp [h_jobs], by simp [h_path], by simp [h_stream], by simp [h_pend],
      by simp [h_arch]⟩
    · show (speechTailWrite cfg chunk (st1.totalSamples + chunk.length) cursor
          st1).speechBuffer ≠ []
      simp [speechTailWrite, htr]
    · show (speechTailWrite cfg chunk (st1.totalSamples + chunk.length) cursor
          st1).speechBuffer.flatten.length = st1.totalSamples + chunk.length - s
      simp only [speechTailWrite, htr, if_true, List.flatten_append,
        List.length_append, List.flatten_cons, List.flatten_nil, List.append_nil,
        List.length_drop, h_flat]
      omega
    · show st1.totalSamples + chunk.length - s < cfg.maxSpeechSamples
      omega

theorem speechRun_step (cfg : RecConfig) (p : String) (s : Nat) (st : RecState)
    (chunk : Chunk) (htr : cfg.hasTranscriber = true)
    (hlen : chunk.length = cfg.chunkSamples)
    (hinv : SpeechRunInv cfg p s st) :
    SpeechRunInv cfg p s (processChunk cfg st chunk [])
    ∨ FlushedRunInv cfg (processChunk cfg st chunk []) := by
  obtain ⟨h_in, h_ss, h_st, h_bne, h_flat, h_sle, h_pre, h_jobs, h_path, h_stream,
    h_pend, h_arch⟩ := hinv
  have hout : processChunk cfg st chunk [] =
      { chunkTail cfg chunk (st.totalSamples + chunk.length) 0 st with
        totalSamples := st.totalSamples + chunk.length } := by
    unfold processChunk
    simp [List.foldl_nil, chunkTail_totalSamples]
  rw [hout]
  exact speechRun_tail cfg p s st chunk 0 htr hlen h_in h_ss h_st
    (by omega) (by omega) (Nat.zero_le _) (by omega) h_jobs h_path h_stream h_pend h_arch

theorem flushedRun_step (cfg : RecConfig) (st : RecState) (chunk : Chunk)
    (hinv : FlushedRunInv cfg st) : FlushedRunInv cfg (processChunk cfg st chunk []) := by
  obtain ⟨h1, h2, h3, h4, h5⟩ := hinv
  rw [processChunk_silent_eq cfg st chunk h1 h2]
  exact ⟨h1, h2, h3, h4, h5⟩

theorem speechRun_trace (cfg : RecConfig) (p : String) (s : Nat)
    (htr : cfg.hasTranscriber = true) (cks : List Chunk) :
    (∀ c ∈ cks, c.length = cfg.chunkSamples) →
    ∀ st : RecState, SpeechRunInv cfg p s st ∨ FlushedRunInv cfg st →
    (SpeechRunInv cfg p s (runTrace cfg st (cks.map (fun c => (c, ([] : List VadEv)))))
      ∨ FlushedRunInv cfg (runTrace cfg st (cks.map (fun c => (c, ([] : List VadEv))))))
    ∧ (runTrace cfg st (cks.map (fun c => (c, ([] : List VadEv))))).totalSamples
        = st.totalSamples + cks.length * cfg.chunkSamples := by
  induction cks with
  | nil =>
      intro _ st hst
      exact ⟨hst, by simp [runTrace]⟩
  | cons c rest ih =>
      intro hlens st hst
      have hc : c.length = cfg.chunkSamples := hlens c (List.mem_cons_self c rest)
      have hstep : SpeechRunInv cfg p s (processChunk cfg st c [])
          ∨ FlushedRunInv cfg (processChunk cfg st c []) := by
        rcases hst with hst | hst
        · exact speechRun_step cfg p s st c htr hc hst
        · exact Or.inr (flushedRun_step cfg st c hst)
      have hrun : runTrace cfg st ((c :: rest).map (fun c => (c, ([] : List VadEv)))) =
          runTrace cfg (processChunk cfg st c [])
            (rest.map (fun c => (c, ([] : List VadEv)))) := rfl
      rw [hrun]
      have hres := ih (fun x hx => hlens x (List.mem_cons_of_mem c hx))
        (processChunk cfg st c []) hstep
      refine ⟨hres.1, ?_⟩
      rw [hres.2, processChunk_totalSamples, hc]
      simp only [List.length_cons]
      ring

theorem speechRun_start (cfg : RecConfig) (p : String) (s : Nat) (c0 : Chunk)
    (htr : cfg.hasTranscriber = true) (hc0 : c0.length = cfg.chunkSamples)
    (hs : s < cfg.chunkSamples) (hcap : 0 < cfg.maxSpeechSamples) :
    SpeechRunInv cfg p s (processChunk cfg (initRecState (some p)) c0 [VadEv.vstart s])
    ∨ FlushedRunInv cfg
        (processChunk cfg (initRecState (some p)) c0 [VadEv.vstart s]) := by
  unfold processChunk
  simp only [List.foldl_cons, List.foldl_nil, applyVadEvent, initRecState,
    Bool.false_eq_true, reduceIte, chunkTail_totalSamples]
  exact speechRun_tail cfg p s _ c0 s htr hc0 rfl (by simp) (by simp) (by simp)
    (by simp) (by omega) (by simpa using hcap) rfl rfl rfl rfl rfl

/-- Claim C6 as amended: with a transcriber configured, a continuous speech
run lasting at least `max_speech_segment_seconds` makes the segmenter finalize
the speech buffer into at least one ASR job without closing the archive, and
the audio duration of each such job is at least the cap and **less than the
cap plus one chunk** (hence at most the cap exactly when the cap is a whole
number of chunks, as with the 20 s / 32 ms defaults).  The claim's bound "at
most `max_speech_segment_seconds`" fails in general (see the
counterexample). -/
theorem forced_flush_caps (cfg : RecConfig) (p : String) (c0 : Chunk) (s : Nat)
    (rest : List Chunk)
    (htr : cfg.hasTranscriber = true)
    (hcap : 0 < cfg.maxSpeechSamples)
    (hc0 : c0.length = cfg.chunkSamples)
    (hrest : ∀ c ∈ rest, c.length = cfg.chunkSamples)
    (hs : s < cfg.chunkSamples)
    (hlong : cfg.maxSpeechSamples + s ≤ (1 + rest.length) * cfg.chunkSamples) :
    1 ≤ (runTrace cfg (initRecState (some p))
        ((c0, [VadEv.vstart s]) :: rest.map (fun c => (c, ([] : List VadEv))))).jobs.length
    ∧ (∀ j ∈ (runTrace cfg (initRecState (some p))
        ((c0, [VadEv.vstart s]) :: rest.map (fun c => (c, ([] : List VadEv))))).jobs,
        cfg.maxSpeechSamples ≤ j.audio.length ∧
        j.audio.length < cfg.maxSpeechSamples + cfg.chunkSamples)
    ∧ (runTrace cfg (initRecState (some p))
        ((c0, [VadEv.vstart s]) :: rest.map (fun c => (c, ([] : List VadEv))))).archiveCount
      = 0 := by
  have hstart := speechRun_start cfg p s c0 htr hc0 hs hcap
  have hrun : runTrace cfg (initRecState (some p))
      ((c0, [VadEv.vstart s]) :: rest.map (fun c => (c, ([] : List VadEv)))) =
      runTrace cfg (processChunk cfg (initRecState (some p)) c0 [VadEv.vstart s])
        (rest.map (fun c => (c, ([] : List VadEv)))) := rfl
  rw [hrun]
  have htot0 : (processChunk cfg (initRecState (some p)) c0
      [VadEv.vstart s]).totalSamples = cfg.chunkSamples := by
    rw [processChunk_totalSamples, hc0]
    simp [initRecState]
  have hres := speechRun_trace cfg p s htr rest hrest
    (processChunk cfg (initRecState (some p)) c0 [VadEv.vstart s]) hstart
  rcases hres.1 with hfin | hfin
  · exfalso
    obtain ⟨-, -, -, -, -, -, h_pre, -⟩ := hfin
    rw [hres.2, htot0] at h_pre
    have : (1 + rest.length) * cfg.chunkSamples =
        cfg.chunkSamples + rest.length * cfg.chunkSamples := by ring
    omega
  · obtain ⟨-, -, h_jlen, h_jbnd, h_arch⟩ := hfin
    exact ⟨by omega, h_jbnd, h_arch⟩

/-- Counterexample to claim C6 as stated: chunk 2 samples, cap 3 samples, a
speech run covering the whole 6-sample stream.  The forced flush fires at the
end of the second chunk with 4 buffered samples: one job is produced but its
audio duration (4) exceeds the cap (3). -/
theorem forced_flush_cap_cex :
    1 ≤ (runTrace ⟨2, 3, 1000, true⟩ (initRecState (some "a.json"))
        [([1, 2], [VadEv.vstart 0]), ([3, 4], []), ([5, 6], [])]).jobs.length
    ∧ ((runTrace ⟨2, 3, 1000, true⟩ (initRecState (some "a.json"))
        [([1, 2], [VadEv.vstart 0]), ([3, 4], []), ([5, 6], [])]).jobs.map
          (fun j => j.audio.length) = [4])
    ∧ ((runTrace ⟨2, 3, 1000, true⟩ (initRecState (some "a.json"))
        [([1, 2], [VadEv.vstart 0]), ([3, 4], []), ([5, 6], [])]).jobs.all
          (fun j => j.audio.length ≤ 3)) = false :=
  ⟨by decide, by decide, by decide⟩

/-- Witness for the amended C6 at the concrete run of the counterexample: the
flush produces one job, within the amended bounds, without touching the
archive. -/
theorem forced_flush_caps_witness :
    1 ≤ (runTrace ⟨2, 3, 1000, true⟩ (initRecState (some "a.json"))
        [([1, 2], [VadEv.vstart 0]), ([3, 4], []), ([5, 6], [])]).jobs.length
    ∧ (∀ j ∈ (runTrace ⟨2, 3, 1000, true⟩ (initRecState (some "a.json"))
        [([1, 2], [VadEv.vstart 0]), ([3, 4], []), ([5, 6], [])]).jobs,
        3 ≤ j.audio.length ∧ j.audio.length < 3 + 2)
    ∧ (runTrace ⟨2, 3, 1000, true⟩ (initRecState (some "a.json"))
        [([1, 2], [VadEv.vstart 0]), ([3, 4], []), ([5, 6], [])]).archiveCount = 0 := by
  have h := forced_flush_caps ⟨2, 3, 1000, true⟩ "a.json" [1, 2] 0 [[3, 4], [5, 6]]
    (by decide) (by decide) (by decide) (by decide) (by decide) (by decide)
  exact h

/-! ## Claim C10 — guarded finalization and non-degenerate ASR jobs -/

theorem flatten_ne_nil (l : List Chunk) (hl : l ≠ []) (h : ∀ b ∈ l, b ≠ ([] : Chunk)) :
    l.flatten ≠ ([] : Chunk) := by
  cases l with
  | nil => exact absurd rfl hl
  | cons c rest =>
      have hc := h c (List.mem_cons_self c rest)
      simp [List.flatten_cons, hc]

theorem take_drop_ne_nil (l : List Sample) (a b : Nat) (ha : a < l.length)
    (hb : 0 < b) : (l.drop a).take b ≠ ([] : Chunk) := by
  intro hcon
  have := congrArg List.length hcon
  simp [List.length_take] at this
  omega

theorem finalize_jobs_nonempty (cfg : RecConfig) (e : Nat) (st : RecState)
    (hbuf : ∀ b ∈ st.speechBuffer, b ≠ ([] : Chunk))
    (hjobs : ∀ j ∈ st.jobs, j.audio ≠ ([] : Chunk)) :
    ∀ j ∈ (finalizeSpeechSegment cfg e st).jobs, j.audio ≠ ([] : Chunk) := by
  unfold finalizeSpeechSegment
  by_cases hb : st.speechBuffer.isEmpty
  · rw [if_pos hb]
    simpa using hjobs
  · rw [if_neg hb]
    by_cases htr : cfg.hasTranscriber = false
    · rw [if_pos htr]
      simpa using hjobs
    · rw [if_neg htr]
      have htr' : cfg.hasTranscriber = true := by
        revert htr; cases cfg.hasTranscriber <;> simp
      intro j hj
      have hj' : j ∈ (queueAsrSegment cfg st.speechBuffer.flatten
          (st.speechStartSample.getD 0) e { st with speechBuffer := [] }).jobs := hj
      unfold queueAsrSegment at hj'
      rw [htr'] at hj'
      cases hpath : st.liveJsonPath with
      | none =>
          rw [show ({ st with speechBuffer := ([] : List Chunk) } : RecState).liveJsonPath
            = none from hpath] at hj'
          simp only [if_true, reduceIte] at hj'
          exact hjobs j hj'
      | some p =>
          rw [show ({ st with speechBuffer := ([] : List Chunk) } : RecState).liveJsonPath
            = some p from hpath] at hj'
          simp only [if_true, reduceIte] at hj'
          rcases List.mem_append.mp hj' with h' | h'
          · exact hjobs j h'
          · rcases List.mem_singleton.mp h' with rfl
            exact flatten_ne_nil st.speechBuffer
              (by simpa [List.isEmpty_iff] using hb) hbuf

theorem evFold_jobs (cfg : RecConfig) (chunk : Chunk) (now : Nat) (evs : List VadEv) :
    ∀ acc : RecState × Nat,
    (evs.foldl (applyVadEvent cfg chunk now) acc).1.jobs = acc.1.jobs := by
  induction evs with
  | nil => intro acc; rfl
  | cons ev rest ih =>
      intro acc
      rw [List.foldl_cons, ih, applyVadEvent_jobs]

theorem bufFold (cfg : RecConfig) (chunk : Chunk) (now : Nat) (evs : List VadEv) :
    ∀ (st : RecState) (cursor : Nat),
    (∀ b ∈ st.speechBuffer, b ≠ ([] : Chunk)) →
    (st.inSpeech = true → cursor < chunk.length) →
    evPosOk chunk.length evs = true →
    (∀ b ∈ (evs.foldl (applyVadEvent cfg chunk now) (st, cursor)).1.speechBuffer,
        b ≠ ([] : Chunk)) ∧
    ((evs.foldl (applyVadEvent cfg chunk now) (st, cursor)).1.inSpeech = true →
      (evs.foldl (applyVadEvent cfg chunk now) (st, cursor)).2 < chunk.length) := by
  induction evs with
  | nil => intro st cursor hbuf hcur _; exact ⟨hbuf, hcur⟩
  | cons ev rest ih =>
      intro st cursor hbuf hcur hwf
      cases ev with
      | vstart s =>
          simp only [evPosOk, Bool.and_eq_true, decide_eq_true_eq] at hwf
          obtain ⟨hs, hrest⟩ := hwf
          rw [List.foldl_cons]
          by_cases hsp : st.inSpeech = true
          · rw [show applyVadEvent cfg chunk now (st, cursor) (VadEv.vstart s) = (st, s)
              from by simp [applyVadEvent, hsp]]
            exact ih st s hbuf (fun _ => hs) hrest
          · simp only [applyVadEvent]
            rw [if_neg hsp]
            refine ih _ _ ?_ (fun _ => hs) hrest
            intro b hb
            exact hbuf b hb
      | vend e =>
          simp only [evPosOk, Bool.and_eq_true, decide_eq_true_eq] at hwf
          obtain ⟨he, hrest⟩ := hwf
          rw [List.foldl_cons]
          by_cases hsp : st.inSpeech = true
          · simp only [applyVadEvent]
            rw [if_pos hsp]
            refine ih _ _ ?_ (fun h => absurd h (by simp)) hrest
            intro b hb
            dsimp only at hb
            by_cases hcond : (cursor < e && cfg.hasTranscriber) = true
            · rw [if_pos hcond] at hb
              rcases List.mem_append.mp hb with h' | h'
              · exact hbuf b h'
              · rcases List.mem_singleton.mp h' with rfl
                have hc1 : cursor < e := by
                  have := (Bool.and_eq_true _ _).mp hcond
                  simpa using this.1
                exact take_drop_ne_nil chunk cursor (e - cursor) (by omega) (by omega)
            · rw [if_neg hcond] at hb
              exact hbuf b hb
          · simp only [applyVadEvent]
            rw [if_neg hsp]
            exact ih st cursor hbuf hcur hrest

theorem chunkTail_silent_buffer_jobs (cfg : RecConfig) (chunk : Chunk) (now cursor : Nat)
    (st1 : RecState) (h : st1.inSpeech = false)
    (hbuf : ∀ b ∈ st1.speechBuffer, b ≠ ([] : Chunk))
    (hjobs : ∀ j ∈ st1.jobs, j.audio ≠ ([] : Chunk)) :
    (∀ b ∈ (chunkTail cfg chunk now cursor st1).speechBuffer, b ≠ ([] : Chunk)) ∧
    (∀ j ∈ (chunkTail cfg chunk now cursor st1).jobs, j.audio ≠ ([] : Chunk)) := by
  unfold chunkTail
  simp only [h, Bool.false_eq_true, if_false]
  cases hp : st1.pendingEndTime with
  | none => exact ⟨hbuf, hjobs⟩
  | some t =>
      dsimp only
      by_cases h2 : (cfg.minSilenceSamples : Int) ≤ (now : Int) - (t : Int)
      · rw [if_pos h2]
        refine ⟨?_, finalize_jobs_nonempty cfg _ st1 hbuf hjobs⟩
        intro b hb
        rw [finalizeSpeechSegment_speechBuffer] at hb
        exact absurd hb (List.not_mem_nil b)
      · rw [if_neg h2]
        exact ⟨hbuf, hjobs⟩

theorem bufInv_chunk (cfg : RecConfig) (st : RecState) (chunk : Chunk)
    (evs : List VadEv) (hcs : 0 < cfg.chunkSamples)
    (hlen : chunk.length = cfg.chunkSamples)
    (hwf : evPosOk cfg.chunkSamples evs = true)
    (hinv : BufInv st) : BufInv (processChunk cfg st chunk evs) := by
  obtain ⟨hbuf, hjobs⟩ := hinv
  have hwf' : evPosOk chunk.length evs = true := by rw [hlen]; exact hwf
  have hfold := bufFold cfg chunk (st.totalSamples + chunk.length) evs st 0 hbuf
    (fun _ => by omega) hwf'
  obtain ⟨hbuf1, hcur1⟩ := hfold
  have hjobs1 : (evs.foldl (applyVadEvent cfg chunk (st.totalSamples + chunk.length))
      (st, 0)).1.jobs = st.jobs :=
    evFold_jobs cfg chunk (st.totalSamples + chunk.length) evs (st, 0)
  set st1 : RecState :=
    (evs.foldl (applyVadEvent cfg chunk (st.totalSamples + chunk.length)) (st, 0)).1
  set cursor : Nat :=
    (evs.foldl (applyVadEvent cfg chunk (st.totalSamples + chunk.length)) (st, 0)).2
  have hjobs1' : ∀ j ∈ st1.jobs, j.audio ≠ ([] : Chunk) := by
    rw [hjobs1]; exact hjobs
  have hgoal : (∀ b ∈ (chunkTail cfg chunk (st.totalSamples + chunk.length) cursor
        st1).speechBuffer, b ≠ ([] : Chunk)) ∧
      (∀ j ∈ (chunkTail cfg chunk (st.totalSamples + chunk.length) cursor st1).jobs,
        j.audio ≠ ([] : Chunk)) := by
    by_cases hsp : st1.inSpeech = true
    · have hcl : cursor < chunk.length := hcur1 hsp
      have hbufW : ∀ b ∈ (speechTailWrite cfg chunk (st.totalSamples + chunk.length)
          cursor st1).speechBuffer, b ≠ ([] : Chunk) := by
        intro b hb
        cases htr : cfg.hasTranscriber
        · simp only [speechTailWrite, htr, Bool.false_eq_true, reduceIte] at hb
          exact hbuf1 b hb
        · simp only [speechTailWrite, htr, reduceIte] at hb
          rcases List.mem_append.mp hb with h' | h'
          · exact hbuf1 b h'
          · rcases List.mem_singleton.mp h' with rfl
            intro hcon
            have := congrArg List.length hcon
            simp at this
            omega
      have hjobsW : ∀ j ∈ (speechTailWrite cfg chunk (st.totalSamples + chunk.length)
          cursor st1).jobs, j.audio ≠ ([] : Chunk) := by
        intro j hj
        exact hjobs1' j (by simpa using hj)
      unfold chunkTail
      rw [if_pos hsp]
      by_cases hrot : shouldRotateSpeech cfg (st.totalSamples + chunk.length)
          (speechTailWrite cfg chunk (st.totalSamples + chunk.length) cursor st1) = true
      · rw [if_pos hrot]
        constructor
        · intro b hb
          rw [show ({ finalizeSpeechSegment cfg _ _ with
              forcedFlushes := _ } : RecState).speechBuffer
            = (finalizeSpeechSegment cfg ((speechTailWrite cfg chunk
                (st.totalSamples + chunk.length) cursor st1).totalSamples + chunk.length)
              (speechTailWrite cfg chunk (st.totalSamples + chunk.length) cursor
                st1)).speechBuffer from rfl, finalizeSpeechSegment_speechBuffer] at hb
          exact absurd hb (List.not_mem_nil b)
        · intro j hj
          exact finalize_jobs_nonempty cfg _ _ hbufW hjobsW j hj
      · rw [if_neg hrot]
        exact ⟨hbufW, hjobsW⟩
    · exact chunkTail_silent_buffer_jobs cfg chunk (st.totalSamples + chunk.length)
        cursor st1 (by simpa using hsp) hbuf1 hjobs1'
  exact ⟨hgoal.1, hgoal.2⟩

theorem bufInv_run (cfg : RecConfig) (trace : List (Chunk × List VadEv))
    (hcs : 0 < cfg.chunkSamples) :
    tracePosOk cfg.chunkSamples trace = true →
    ∀ st : RecState, BufInv st → BufInv (runTrace cfg st trace) := by
  induction trace with
  | nil => intro _ st hst; exact hst
  | cons ce rest ih =>
      intro hwf st hst
      obtain ⟨chunk, evs⟩ := ce
      simp only [tracePosOk, Bool.and_eq_true, decide_eq_true_eq] at hwf
      obtain ⟨⟨hlen, hevs⟩, hrest⟩ := hwf
      exact ih hrest (processChunk cfg st chunk evs)
        (bufInv_chunk cfg st chunk evs hcs hlen hevs hst)

/-- Claim C10: finalizing a speech segment with an empty buffer, or with no
transcriber configured, enqueues no ASR job and leaves the pending-job table
unchanged — the result is exactly the input with the buffer cleared and the
speech state reset.  Consequently (for positionally well-formed VAD events)
every job placed on the ASR queue carries non-empty audio; every job carries a
non-null sidecar path by construction, since `_queue_asr_segment` returns
before enqueueing when `json_path is None` (`AsrJob.jsonPath` is the matched
`String`). -/
theorem finalize_guards (cfg : RecConfig) :
    (∀ (e : Nat) (st : RecState), st.speechBuffer = [] →
        finalizeSpeechSegment cfg e st = resetSpeechState st)
    ∧ (∀ (e : Nat) (st : RecState), cfg.hasTranscriber = false →
        finalizeSpeechSegment cfg e st =
          resetSpeechState { st with speechBuffer := ([] : List Chunk) })
    ∧ (∀ (path : Option String) (trace : List (Chunk × List VadEv)),
        0 < cfg.chunkSamples →
        tracePosOk cfg.chunkSamples trace = true →
        ∀ j ∈ (runTrace cfg (initRecState path) trace).jobs,
          j.audio ≠ ([] : Chunk)) := by
  refine ⟨?_, ?_, ?_⟩
  · intro e st hb
    unfold finalizeSpeechSegment
    rw [if_pos (by simp [hb])]
  · intro e st htr
    by_cases hb : st.speechBuffer = []
    · unfold finalizeSpeechSegment
      rw [if_pos (by simp [hb])]
      have hrec : ({ st with speechBuffer := ([] : List Chunk) } : RecState) = st := by
        cases st
        simp_all
      rw [hrec]
    · unfold finalizeSpeechSegment
      rw [if_neg (by simpa [List.isEmpty_iff] using hb), if_pos htr]
  · intro path trace hcs hwf j hj
    exact (bufInv_run cfg trace hcs hwf (initRecState path)
      ⟨by simp [initRecState], by simp [initRecState]⟩).2 j hj

/-- Witness for C10: finalizing the fresh state (empty buffer) only resets the
speech state, and the job enqueued by the forced flush of the concrete run
carries non-empty audio. -/
theorem finalize_guards_witness :
    finalizeSpeechSegment ⟨2, 3, 1000, true⟩ 5 (initRecState (some "a.json"))
      = resetSpeechState (initRecState (some "a.json"))
    ∧ ((⟨[1, 2, 3, 4], 0, 4, "a.json"⟩ : AsrJob)).audio ≠ ([] : Chunk) :=
  ⟨(finalize_guards ⟨2, 3, 1000, true⟩).1 5 (initRecState (some "a.json")) rfl,
   (finalize_guards ⟨2, 3, 1000, true⟩).2.2 (some "a.json")
     [([1, 2], [VadEv.vstart 0]), ([3, 4], []), ([5, 6], [])] (by decide) (by decide)
     (⟨[1, 2, 3, 4], 0, 4, "a.json"⟩ : AsrJob)
     (by decide)⟩

end Eve
